import Mathlib

/-
Verification of the NewareNDA battery-cycler file decoder against its
specification.  The python sources (NewareNDA.py, NewareNDAx.py, dicts.py)
are shallowly embedded: byte buffers are lists of naturals (each < 256),
python numbers are exact rationals, pandas cells are a four-way sum
(number, string, datetime tuple, missing), and fallible operations return
Except.  Pandas/python library semantics that the source relies on are
modelled where used and documented at each definition.
-/

set_option maxHeartbeats 2000000
set_option maxRecDepth 4000

namespace NewareNDA

/-- A cell of a DataFrame row: a number (ints and floats modelled as exact
rationals), a string, a datetime (kept as the raw Y/M/D/h/m/s tuple exactly as
passed to the python datetime constructor), or a missing value (NaN). -/
inductive Cell where
  | num (q : ℚ)
  | str (s : String)
  | dt (Y Mo Dy hh mi ss : ℕ)
  | null
deriving DecidableEq

/-- Little-endian unsigned integer built from len bytes of b starting at
offset off, as python struct.unpack of an unsigned field does.  Out-of-range
reads give 0; every caller in this development supplies enough bytes, matching
the python callers which slice exactly sized buffers. -/
def leNat (b : List ℕ) (off : ℕ) : ℕ → ℕ
  | 0 => 0
  | n + 1 => b.getD off 0 + 256 * leNat b (off + 1) n

/-- Little-endian signed (two's complement) integer of len bytes, as python
struct.unpack of a signed field does. -/
def leInt (b : List ℕ) (off len : ℕ) : ℤ :=
  let u := leNat b off len
  if u < 2 ^ (8 * len - 1) then (u : ℤ) else (u : ℤ) - 2 ^ (8 * len)

/-- Names for data fields (dicts.py rec_columns). -/
def rec_columns : List String :=
  ["Index", "Cycle", "Step", "Status", "Time", "Voltage",
   "Current(mA)", "Charge_Capacity(mAh)", "Discharge_Capacity(mAh)",
   "Charge_Energy(mWh)", "Discharge_Energy(mWh)", "Timestamp"]

/-- Names for the auxiliary table (dicts.py aux_columns): exactly 3 columns. -/
def aux_columns : List String := ["Index", "Aux", "T"]

/-- Dictionary mapping Status integer to string (dicts.py state_dict); a
missing key is a python KeyError, modelled as none. -/
def state_dict : ℕ → Option String
  | 1 => some "CC_Chg"
  | 2 => some "CC_DChg"
  | 3 => some "CV_Chg"
  | 4 => some "Rest"
  | 5 => some "Cycle"
  | 7 => some "CCCV_Chg"
  | 10 => some "CR_DChg"
  | 13 => some "Pause"
  | 17 => some "SIM"
  | 19 => some "CV_DChg"
  | 20 => some "CCCV_DChg"
  | _ => none

/-- Field scaling based on the instrument Range setting (dicts.py
multiplier_dict); the python float literals 1e-1, 1e-2, 1e-3 are modelled by
the exact decimals they denote.  A missing key is a KeyError, modelled as
none. -/
def multiplier_dict : ℤ → Option ℚ
  | -200000 => some (1/100)
  | -100000 => some (1/100)
  | -60000 => some (1/100)
  | -30000 => some (1/100)
  | -50000 => some (1/100)
  | -20000 => some (1/100)
  | -10000 => some (1/100)
  | -6000 => some (1/100)
  | -5000 => some (1/100)
  | -3000 => some (1/100)
  | -1000 => some (1/100)
  | -500 => some (1/1000)
  | -100 => some (1/1000)
  | 0 => some 0
  | 10 => some (1/1000)
  | 100 => some (1/100)
  | 200 => some (1/100)
  | 1000 => some (1/10)
  | 6000 => some (1/10)
  | 10000 => some (1/10)
  | 12000 => some (1/10)
  | 50000 => some (1/10)
  | 60000 => some (1/10)
  | 100000 => some (1/10)
  | _ => none

/-- Errors that the embedded decoder can raise (python exception classes). -/
inductive PyErr where
  | keyErrorRange (r : ℤ)
  | keyErrorStatus (s : ℕ)
  | valueErrorDate
  | eofError
  | fuelExhausted
  | columnMismatch (passed got : ℕ)
  | astypeNonFinite
  | attributeError
  | keyErrorMode (m : String)
deriving DecidableEq

/-- Gregorian leap year, as the python datetime module defines it. -/
def is_leap (y : ℕ) : Bool := (y % 4 == 0 && y % 100 != 0) || y % 400 == 0

/-- Number of days of month m in year y, as python datetime validates. -/
def days_in_month (y m : ℕ) : ℕ :=
  if m = 2 then (if is_leap y then 29 else 28)
  else if m = 4 ∨ m = 6 ∨ m = 9 ∨ m = 11 then 30
  else 31

/-- Validity check that the python datetime constructor performs on the
Y/M/D/h/m/s tuple; an out-of-range field raises ValueError. -/
def valid_datetime (Y Mo Dy hh mi ss : ℕ) : Bool :=
  1 ≤ Y && Y ≤ 9999 && 1 ≤ Mo && Mo ≤ 12 && 1 ≤ Dy && Dy ≤ days_in_month Y Mo
    && hh < 24 && mi < 60 && ss < 60

/-- Helper to identify a valid record (NewareNDA.py valid_record): the Status
byte at offset 12 of the 86-byte window must be non-zero. -/
def valid_record (b : List ℕ) : Bool := b.getD 12 0 != 0

/-- Shallow embedding of the version-29 main record field codec
(NewareNDA.py bytes_to_list).  Field offsets and widths follow the python
struct.unpack calls exactly.  A record with Index = 0 or Status = 0 is
discarded by returning the empty row, mirroring the python return of [].
Lookup and validation order follows python evaluation order: the zero check,
then the Range multiplier lookup, then the Status lookup, then the datetime
construction. -/
def bytes_to_list (b : List ℕ) : Except PyErr (List Cell) :=
  let Index := leNat b 2 4
  let Cycle := leNat b 6 4
  let Step := leNat b 10 4
  let Status := b.getD 12 0
  let Time := leNat b 14 8
  let Voltage := leInt b 22 4
  let Current := leInt b 26 4
  let Charge_capacity := leInt b 38 8
  let Discharge_capacity := leInt b 46 8
  let Charge_energy := leInt b 54 8
  let Discharge_energy := leInt b 62 8
  let Y := leNat b 70 2
  let Mo := b.getD 72 0
  let Dy := b.getD 73 0
  let hh := b.getD 74 0
  let mi := b.getD 75 0
  let ss := b.getD 76 0
  let Range := leInt b 78 4
  if Index = 0 ∨ Status = 0 then .ok []
  else
    match multiplier_dict Range with
    | none => .error (.keyErrorRange Range)
    | some multiplier =>
      match state_dict Status with
      | none => .error (.keyErrorStatus Status)
      | some st =>
        if valid_datetime Y Mo Dy hh mi ss then
          .ok [Cell.num Index,
               Cell.num (Cycle + 1),
               Cell.num Step,
               Cell.str st,
               Cell.num ((Time : ℚ) / 1000),
               Cell.num ((Voltage : ℚ) / 10000),
               Cell.num ((Current : ℚ) * multiplier),
               Cell.num ((Charge_capacity : ℚ) * multiplier / 3600),
               Cell.num ((Discharge_capacity : ℚ) * multiplier / 3600),
               Cell.num ((Charge_energy : ℚ) * multiplier / 3600),
               Cell.num ((Discharge_energy : ℚ) * multiplier / 3600),
               Cell.dt Y Mo Dy hh mi ss]
        else .error .valueErrorDate

/-- Shallow embedding of the auxiliary record codec (NewareNDA.py
aux_bytes_to_list): it always returns a 4-field row [Index, Aux, T, V]. -/
def aux_bytes_to_list (b : List ℕ) : List Cell :=
  let Aux := b.getD 1 0
  let Index := leNat b 2 4
  let V := leInt b 22 4
  let T := leInt b 34 2
  [Cell.num Index, Cell.num Aux, Cell.num ((T : ℚ) / 10),
   Cell.num ((V : ℚ) / 10000)]

/-- C1: for every Range code present in multiplier_dict with multiplier m,
decoding a main data record that passes the non-zero Index/Status check,
whose Status code is mapped, and whose embedded date is valid yields
Current = c * m and capacities/energies scaled by m/3600; for every Range
code absent from multiplier_dict, decoding such a record fails with the
unknown-range error rather than returning a value. -/
theorem C1_range_multiplier (b : List ℕ)
    (hIdx : leNat b 2 4 ≠ 0) (hSt : b.getD 12 0 ≠ 0)
    (st : String) (hstate : state_dict (b.getD 12 0) = some st)
    (hdate : valid_datetime (leNat b 70 2) (b.getD 72 0) (b.getD 73 0)
      (b.getD 74 0) (b.getD 75 0) (b.getD 76 0) = true) :
    (∀ m : ℚ, multiplier_dict (leInt b 78 4) = some m →
      bytes_to_list b = .ok
        [Cell.num (leNat b 2 4 : ℚ),
         Cell.num ((leNat b 6 4 : ℚ) + 1),
         Cell.num (leNat b 10 4 : ℚ),
         Cell.str st,
         Cell.num ((leNat b 14 8 : ℚ) / 1000),
         Cell.num ((leInt b 22 4 : ℚ) / 10000),
         Cell.num ((leInt b 26 4 : ℚ) * m),
         Cell.num ((leInt b 38 8 : ℚ) * m / 3600),
         Cell.num ((leInt b 46 8 : ℚ) * m / 3600),
         Cell.num ((leInt b 54 8 : ℚ) * m / 3600),
         Cell.num ((leInt b 62 8 : ℚ) * m / 3600),
         Cell.dt (leNat b 70 2) (b.getD 72 0) (b.getD 73 0)
           (b.getD 74 0) (b.getD 75 0) (b.getD 76 0)]) ∧
    (multiplier_dict (leInt b 78 4) = none →
      bytes_to_list b = .error (.keyErrorRange (leInt b 78 4))) := by
  have hno : ¬ (leNat b 2 4 = 0 ∨ b.getD 12 0 = 0) := not_or.mpr ⟨hIdx, hSt⟩
  constructor
  · intro m hm
    simp only [bytes_to_list, if_neg hno, hm, hstate, hdate, if_true]
  · intro hm
    simp only [bytes_to_list, if_neg hno, hm]

/-- Concrete 86-byte version-29 record used as the C1 witness input:
Index 1, Status 1 (CC_Chg), raw Current 500, Range 10 (multiplier 1/1000),
date 2021-01-01. -/
def c1bytes : List ℕ :=
  ((((((((List.replicate 86 0).set 2 1).set 12 1).set 26 244).set 27 1).set
    70 229).set 71 7).set 72 1).set 73 1 |>.set 78 10

theorem C1_range_multiplier_witness :
    bytes_to_list c1bytes = .ok
      [Cell.num (leNat c1bytes 2 4 : ℚ),
       Cell.num ((leNat c1bytes 6 4 : ℚ) + 1),
       Cell.num (leNat c1bytes 10 4 : ℚ),
       Cell.str "CC_Chg",
       Cell.num ((leNat c1bytes 14 8 : ℚ) / 1000),
       Cell.num ((leInt c1bytes 22 4 : ℚ) / 10000),
       Cell.num ((leInt c1bytes 26 4 : ℚ) * (1/1000)),
       Cell.num ((leInt c1bytes 38 8 : ℚ) * (1/1000) / 3600),
       Cell.num ((leInt c1bytes 46 8 : ℚ) * (1/1000) / 3600),
       Cell.num ((leInt c1bytes 54 8 : ℚ) * (1/1000) / 3600),
       Cell.num ((leInt c1bytes 62 8 : ℚ) * (1/1000) / 3600),
       Cell.dt (leNat c1bytes 70 2) (c1bytes.getD 72 0) (c1bytes.getD 73 0)
         (c1bytes.getD 74 0) (c1bytes.getD 75 0) (c1bytes.getD 76 0)] :=
  (C1_range_multiplier c1bytes (by decide) (by decide) "CC_Chg" (by decide)
    (by decide)).1 (1/1000) (by rfl)

/-- Whether pandas diff of two adjacent cells is a non-zero number: the
recomputation of Step tests abs(diff) > 0, which is False when either cell is
missing or non-numeric (NaN propagates and NaN > 0 is False). -/
def cell_changed (prev cur : Cell) : Bool :=
  match prev, cur with
  | Cell.num a, Cell.num b => a != b
  | _, _ => false

/-- Helper for change_indicator: per-row 0/1 change indicators for the rows
after the first, with the indicator of the final row forced to 0 (the python
a.iloc[-1] = 0 assignment). -/
def ci_aux (prev : Cell) : List Cell → List ℕ
  | [] => []
  | [_] => [0]
  | y :: z :: t => (if cell_changed prev y then 1 else 0) :: ci_aux y (z :: t)

/-- The 0/1 indicator series of count_changes: diff, then a.iloc[0] = 1, then
a.iloc[-1] = 0, then abs(a) > 0.  For a single-row series both forced writes
hit the same position and the later write wins, so the sole indicator is 0. -/
def change_indicator : List Cell → List ℕ
  | [] => []
  | [_] => [0]
  | x :: rest => 1 :: ci_aux x rest

/-- Cumulative sum of a list starting from base b (pandas cumsum). -/
def cumsum_from (b : ℕ) : List ℕ → List ℕ
  | [] => []
  | x :: t => (b + x) :: cumsum_from (b + x) t

/-- Shallow embedding of count_changes (NewareNDA.py): enumerate the number
of value changes in a series as (abs(diff forced at both ends) > 0).cumsum().
It is applied to the raw Step column of the assembled table. -/
def count_changes (s : List Cell) : List ℕ :=
  cumsum_from 0 (change_indicator s)

/-- Number of maximal runs of consecutive identical values in a list. -/
def num_runs {α : Type} [DecidableEq α] : List α → ℕ
  | [] => 0
  | [_] => 1
  | x :: y :: t => (if x = y then 0 else 1) + num_runs (y :: t)

/-- The correction term of the amended C2 claim: 1 when the list has at least
two elements and its final element differs from its predecessor (that final
change is the one count_changes is forced to ignore), else 0. -/
def tail_adjust {α : Type} [DecidableEq α] : List α → ℕ
  | [] => 0
  | [_] => 0
  | [a, b] => if a = b then 0 else 1
  | _ :: y :: z :: t => tail_adjust (y :: z :: t)

/-- One row of an assembled Record table, restricted to the fields that the
Step recomputation reads: the raw Step cell value and the Status string. -/
structure RecRow where
  step : ℚ
  status : String
deriving DecidableEq

/-- A table is step-aligned when adjacent rows agree on the raw Step field
exactly when they agree on Status.  Real decodes satisfy this: the raw Step
field increments at test-program step boundaries. -/
def step_aligned (tbl : List RecRow) : Prop :=
  List.Chain' (fun a b => a.step = b.step ↔ a.status = b.status) tbl

theorem cumsum_from_le : ∀ (l : List ℕ) (b x : ℕ), x ∈ cumsum_from b l → b ≤ x
  | [], _, _, h => absurd h (List.not_mem_nil _)
  | c :: t, b, x, h => by
      rcases List.mem_cons.mp h with rfl | h
      · exact Nat.le_add_right b c
      · exact (Nat.le_add_right b c).trans (cumsum_from_le t (b + c) x h)

theorem ci_aux_le_one :
    ∀ (rest : List Cell) (prev : Cell), ∀ x ∈ ci_aux prev rest, x ≤ 1
  | [], _, _, h => absurd h (List.not_mem_nil _)
  | [_], _, x, h => by
      rcases List.mem_cons.mp h with rfl | h
      · exact Nat.zero_le 1
      · exact absurd h (List.not_mem_nil _)
  | y :: z :: t, prev, x, h => by
      rcases List.mem_cons.mp h with rfl | h
      · split <;> simp
      · exact ci_aux_le_one (z :: t) y x h

theorem cumsum_card : ∀ (t : List ℕ) (a b : ℕ), (∀ x ∈ t, x ≤ 1) →
    (cumsum_from b (a :: t)).toFinset.card = 1 + t.sum
  | [], a, b, _ => by simp [cumsum_from]
  | c :: t, a, b, h => by
      have hc : c ≤ 1 := h c (List.mem_cons_self c t)
      have ht : ∀ x ∈ t, x ≤ 1 := fun x hx => h x (List.mem_cons_of_mem c hx)
      have ih := cumsum_card t c (b + a) ht
      show ((b + a) :: cumsum_from (b + a) (c :: t)).toFinset.card = 1 + (c :: t).sum
      rw [List.toFinset_cons]
      interval_cases c
      · have hmem : b + a ∈ cumsum_from (b + a) (0 :: t) := by
          show b + a ∈ (b + a + 0) :: cumsum_from (b + a + 0) t
          simp
        rw [Finset.insert_eq_self.mpr (List.mem_toFinset.mpr hmem)]
        simpa using ih
      · have hnmem : b + a ∉ cumsum_from (b + a) (1 :: t) := by
          intro hmem
          have h1 : b + a + 1 ≤ b + a := by
            rcases List.mem_cons.mp hmem with heq | hmem2
            · omega
            · exact cumsum_from_le t (b + a + 1) (b + a) hmem2
          omega
        rw [Finset.card_insert_of_not_mem (fun hmem =>
          hnmem (List.mem_toFinset.mp hmem))]
        simp only [ih, List.sum_cons]
        omega

theorem ci_runs : ∀ (rest : List RecRow) (prev : RecRow),
    step_aligned (prev :: rest) →
    (ci_aux (Cell.num prev.step) (rest.map fun r => Cell.num r.step)).sum + 1
        + tail_adjust ((prev :: rest).map fun r => r.status)
      = num_runs ((prev :: rest).map fun r => r.status)
  | [], prev, _ => by simp [ci_aux, tail_adjust, num_runs]
  | [y], prev, h => by
      simp only [List.map_cons, List.map_nil, ci_aux, List.sum_cons,
        List.sum_nil, tail_adjust, num_runs]
      omega
  | y :: z :: t, prev, h => by
      have halign : prev.step = y.step ↔ prev.status = y.status :=
        (List.chain'_cons.mp h).1
      have htail : step_aligned (y :: z :: t) := (List.chain'_cons.mp h).2
      have ih := ci_runs (z :: t) y htail
      simp only [List.map_cons] at ih ⊢
      show ((if cell_changed (Cell.num prev.step) (Cell.num y.step) then 1
          else 0) :: ci_aux (Cell.num y.step) ((z :: t).map fun r =>
            Cell.num r.step)).sum + 1
        + tail_adjust (prev.status :: y.status :: z.status ::
            (t.map fun r => r.status))
        = num_runs (prev.status :: y.status :: z.status ::
            (t.map fun r => r.status))
      rw [show tail_adjust (prev.status :: y.status :: z.status ::
            (t.map fun r => r.status))
          = tail_adjust (y.status :: z.status :: (t.map fun r => r.status))
          from rfl]
      rw [show num_runs (prev.status :: y.status :: z.status ::
            (t.map fun r => r.status))
          = (if prev.status = y.status then 0 else 1)
            + num_runs (y.status :: z.status :: (t.map fun r => r.status))
          from rfl]
      simp only [List.sum_cons, List.map_cons] at ih ⊢
      have hind : (if cell_changed (Cell.num prev.step) (Cell.num y.step)
          then 1 else 0) = (if prev.status = y.status then (0 : ℕ) else 1) := by
        simp only [cell_changed, bne_iff_ne]
        by_cases hs : prev.status = y.status
        · simp [hs, halign.mpr hs]
        · have : prev.step ≠ y.step := fun he => hs (halign.mp he)
          simp [hs, this]
      omega

/-- C2 counterexample: at the claim's own example the recomputed Step column
is [1,2,2,3,3], not [1,2,2,3,4]; it has 3 distinct values while the Status
sequence [Rest, CC_Chg, CC_Chg, CC_DChg, Rest] has 4 maximal runs, because a
Status change on the final row is forced to not start a new run. -/
theorem C2_distinct_steps_counterexample :
    count_changes [Cell.num 1, Cell.num 2, Cell.num 2, Cell.num 3,
        Cell.num 4] = [1, 2, 2, 3, 3]
      ∧ (count_changes [Cell.num 1, Cell.num 2, Cell.num 2, Cell.num 3,
          Cell.num 4]).toFinset.card = 3
      ∧ num_runs ["Rest", "CC_Chg", "CC_Chg", "CC_DChg", "Rest"] = 4
      ∧ (3 : ℕ) ≠ 4 := by
  refine ⟨by decide, by decide, ?_, by decide⟩
  decide

/-- C2 amended: for every nonempty step-aligned Record table, the number of
distinct values of the recomputed Step column equals the number of maximal
runs of identical Status values minus one exactly when the table has at least
two rows and the final row starts a new run (stated additively to avoid
truncated subtraction). -/
theorem C2_distinct_steps (tbl : List RecRow) (hne : tbl ≠ [])
    (halign : step_aligned tbl) :
    (count_changes (tbl.map fun r => Cell.num r.step)).toFinset.card
        + tail_adjust (tbl.map fun r => r.status)
      = num_runs (tbl.map fun r => r.status) := by
  match tbl with
  | [] => exact absurd rfl hne
  | [r] => simp [count_changes, change_indicator, cumsum_from, tail_adjust,
      num_runs]
  | r :: y :: rest =>
      have hcard := cumsum_card
        (ci_aux (Cell.num r.step) ((y :: rest).map fun q => Cell.num q.step))
        1 0 (ci_aux_le_one _ _)
      have hruns := ci_runs (y :: rest) r halign
      have hcc : count_changes ((r :: y :: rest).map fun q => Cell.num q.step)
          = cumsum_from 0 (1 :: ci_aux (Cell.num r.step)
              ((y :: rest).map fun q => Cell.num q.step)) := rfl
      rw [hcc, hcard]
      omega

theorem C2_distinct_steps_witness :
    (count_changes (([⟨1, "Rest"⟩, ⟨2, "CC_Chg"⟩, ⟨2, "CC_Chg"⟩,
          ⟨3, "CC_DChg"⟩, ⟨4, "Rest"⟩] : List RecRow).map
            fun r => Cell.num r.step)).toFinset.card
        + tail_adjust (([⟨1, "Rest"⟩, ⟨2, "CC_Chg"⟩, ⟨2, "CC_Chg"⟩,
            ⟨3, "CC_DChg"⟩, ⟨4, "Rest"⟩] : List RecRow).map fun r => r.status)
      = num_runs (([⟨1, "Rest"⟩, ⟨2, "CC_Chg"⟩, ⟨2, "CC_Chg"⟩,
          ⟨3, "CC_DChg"⟩, ⟨4, "Rest"⟩] : List RecRow).map fun r => r.status) :=
  C2_distinct_steps _ (by decide) (by unfold step_aligned; simp only [List.chain'_cons, List.chain'_singleton]; decide)

/-- The Step column exactly as the claim (and spec section 4.5) words it, for
comparison with the source-derived count_changes: the first row starts run 1;
an interior row increments the counter exactly when its Status differs from
its predecessor; the final row never increments.  This definition follows the
wording of the claim, not the source. -/
def claimed_steps : String → List String → ℕ → List ℕ
  | _, [], _ => []
  | _, [_], c => [c]
  | prev, y :: z :: t, c =>
      (if y = prev then c else c + 1)
        :: claimed_steps y (z :: t) (if y = prev then c else c + 1)

/-- Entry point of the claim-worded Step recomputation (see claimed_steps). -/
def claimed_step_column : List String → List ℕ
  | [] => []
  | s :: rest => 1 :: claimed_steps s rest 1

theorem cumsum_ci_eq_claimed : ∀ (rest : List RecRow) (prev : RecRow) (c : ℕ),
    step_aligned (prev :: rest) →
    cumsum_from c (ci_aux (Cell.num prev.step)
        (rest.map fun r => Cell.num r.step))
      = claimed_steps prev.status (rest.map fun r => r.status) c
  | [], _, _, _ => rfl
  | [y], prev, c, _ => by
      show [c + 0] = [c]
      simp
  | y :: z :: t, prev, c, h => by
      have halign : prev.step = y.step ↔ prev.status = y.status :=
        (List.chain'_cons.mp h).1
      have htail : step_aligned (y :: z :: t) := (List.chain'_cons.mp h).2
      have hind : (c + if cell_changed (Cell.num prev.step) (Cell.num y.step)
            then 1 else 0)
          = (if y.status = prev.status then c else c + 1) := by
        simp only [cell_changed, bne_iff_ne]
        by_cases hs : y.status = prev.status
        · simp [hs, halign.mpr hs.symm]
        · have : prev.step ≠ y.step := fun he => hs ((halign.mp he).symm)
          simp [hs, this]
      have ih := cumsum_ci_eq_claimed (z :: t) y
        (c + if cell_changed (Cell.num prev.step) (Cell.num y.step)
          then 1 else 0) htail
      show (c + if cell_changed (Cell.num prev.step) (Cell.num y.step)
            then 1 else 0)
          :: cumsum_from (c + if cell_changed (Cell.num prev.step)
              (Cell.num y.step) then 1 else 0)
            (ci_aux (Cell.num y.step) ((z :: t).map fun r => Cell.num r.step))
        = (if y.status = prev.status then c else c + 1)
          :: claimed_steps y.status ((z :: t).map fun r => r.status)
            (if y.status = prev.status then c else c + 1)
      rw [← hind, ih, hind]

theorem cumsum_from_chain :
    ∀ (l : List ℕ) (b : ℕ), List.Chain' (· ≤ ·) (cumsum_from b l)
  | [], _ => List.chain'_nil
  | [_], _ => List.chain'_singleton _
  | x :: y :: t, b => by
      show List.Chain' (· ≤ ·)
        ((b + x) :: (b + x + y) :: cumsum_from (b + x + y) t)
      rw [List.chain'_cons]
      exact ⟨Nat.le_add_right _ _, cumsum_from_chain (y :: t) (b + x)⟩

/-- C3 counterexample: on a single-row table the recomputed Step column is
[0], not [1]: the forced final-row zero overrides the forced first-row one,
so the first row does not always start run 1 as the claim states. -/
theorem C3_step_counter_counterexample :
    count_changes [Cell.num 4] = [0]
      ∧ claimed_step_column ["Rest"] = [1]
      ∧ ([0] : List ℕ) ≠ [1] := by
  refine ⟨rfl, rfl, by decide⟩

/-- C3 amended: for every step-aligned Record table with at least two rows,
the recomputed Step column is exactly the 1-based run-length counter the
claim describes (first row starts run 1, an interior row increments exactly
at a Status change, the final row never increments), and the column is
non-decreasing.  A single-row table instead receives the Step value 0. -/
theorem C3_step_run_counter (tbl : List RecRow) (h2 : 2 ≤ tbl.length)
    (halign : step_aligned tbl) :
    count_changes (tbl.map fun r => Cell.num r.step)
        = claimed_step_column (tbl.map fun r => r.status)
      ∧ List.Chain' (· ≤ ·) (count_changes (tbl.map fun r => Cell.num r.step)) := by
  match tbl with
  | [] => simp at h2
  | [r] => simp at h2
  | r :: y :: rest =>
      constructor
      · have heq := cumsum_ci_eq_claimed (y :: rest) r 1 halign
        show cumsum_from 0 (1 :: ci_aux (Cell.num r.step)
            ((y :: rest).map fun q => Cell.num q.step))
          = 1 :: claimed_steps r.status ((y :: rest).map fun q => q.status) 1
        show (0 + 1) :: cumsum_from (0 + 1) (ci_aux (Cell.num r.step)
            ((y :: rest).map fun q => Cell.num q.step))
          = 1 :: claimed_steps r.status ((y :: rest).map fun q => q.status) 1
        rw [Nat.zero_add, heq]
      · exact cumsum_from_chain _ _

theorem C3_step_run_counter_witness :
    count_changes (([⟨1, "Rest"⟩, ⟨2, "CC_Chg"⟩, ⟨2, "CC_Chg"⟩,
          ⟨3, "CC_DChg"⟩, ⟨4, "Rest"⟩] : List RecRow).map
            fun r => Cell.num r.step)
        = claimed_step_column (([⟨1, "Rest"⟩, ⟨2, "CC_Chg"⟩, ⟨2, "CC_Chg"⟩,
            ⟨3, "CC_DChg"⟩, ⟨4, "Rest"⟩] : List RecRow).map fun r => r.status)
      ∧ List.Chain' (· ≤ ·) (count_changes (([⟨1, "Rest"⟩, ⟨2, "CC_Chg"⟩,
          ⟨2, "CC_Chg"⟩, ⟨3, "CC_DChg"⟩, ⟨4, "Rest"⟩] : List RecRow).map
            fun r => Cell.num r.step)) :=
  C3_step_run_counter _ (by decide) (by unfold step_aligned; simp only [List.chain'_cons, List.chain'_singleton]; decide)

/-- Test whether a Status string is one of the three incremental statuses for
the given increment key (the inc membership test of generate_cycle_number). -/
def is_inc_status (inkey st : String) : Bool :=
  st == "CCCV_" ++ inkey || st == "CC_" ++ inkey || st == "CP_" ++ inkey

/-- Helper for rising_edges: per-row rising-edge flags for the rows after the
first (the pandas (inc - inc.shift()).clip(0) computation). -/
def rising_aux (inkey : String) : String → List String → List Bool
  | _, [] => []
  | prev, y :: t =>
      (is_inc_status inkey y && !is_inc_status inkey prev)
        :: rising_aux inkey y t

/-- The inc series of generate_cycle_number: 1 exactly at a rising edge of an
incremental status, with the first entry forced to 1 (inc.iat[0] = 1). -/
def rising_edges (inkey : String) : List String → List Bool
  | [] => []
  | s :: rest => true :: rising_aux inkey s rest

/-- Split a character list at its first underscore; none when there is no
underscore. -/
def split_chars : List Char → Option (List Char × List Char)
  | [] => none
  | c :: rest =>
      if c = '_' then some ([], rest)
      else match split_chars rest with
        | none => none
        | some (l, r) => some (c :: l, r)

/-- Python status.split with one split on the underscore, realized by a
structural scan of the character list: none when the string contains no
underscore (that raises ValueError in the source and is handled by the
except branch). -/
def split_state (s : String) : Option (String × String) :=
  match split_chars s.data with
  | none => none
  | some (l, r) => some (String.mk l, String.mk r)

/-- Python str.lower for the ASCII mode strings, realized structurally over
the character list. -/
def str_lower (s : String) : String := String.mk (s.data.map Char.toLower)

/-- Whether a Status string carries the given state after its first
underscore (the python state == offkey test). -/
def carries_state (key s : String) : Bool :=
  match split_state s with
  | some (_, state) => state == key
  | none => false

/-- The imperative loop of generate_cycle_number as a fold over the rows
zipped with their rising-edge flags: the state is the current cycle number
and the pending Flag; every row emits the cycle value holding after any
increment performed on that row (the finally assignment). -/
def cyc_run (offkey : String) : List (String × Bool) → ℕ → Bool → List ℕ
  | [], _, _ => []
  | (st, incb) :: rest, cyc, flag =>
      match split_state st with
      | none =>
          cyc :: cyc_run offkey rest cyc (if st == "SIM" then true else flag)
      | some (_, state) =>
          if incb && flag then (cyc + 1) :: cyc_run offkey rest (cyc + 1) false
          else if state == offkey then cyc :: cyc_run offkey rest cyc true
          else cyc :: cyc_run offkey rest cyc flag

/-- Helper id_first_state (NewareNDA.py): the lowercased state of the first
non-Rest status, defaulting to chg when none exists or it has no
underscore. -/
def id_first_state (statuses : List String) : String :=
  match statuses.filter (fun s => s != "Rest") with
  | [] => "chg"
  | s :: _ =>
      match split_state s with
      | none => "chg"
      | some (_, sfx) => str_lower sfx

/-- Shallow embedding of generate_cycle_number (NewareNDA.py): resolve auto
via id_first_state, select the increment and off keys from the mode, and fold
the cycle counter over the Status column; an unrecognized mode raises
KeyError. -/
def generate_cycle_number (statuses : List String) (cycle_mode : String) :
    Except PyErr (List ℕ) :=
  let mode := if str_lower cycle_mode == "auto" then id_first_state statuses
    else cycle_mode
  if str_lower mode == "chg" then
    .ok (cyc_run "DChg" (statuses.zip (rising_edges "Chg" statuses)) 1 false)
  else if str_lower mode == "dchg" then
    .ok (cyc_run "Chg" (statuses.zip (rising_edges "DChg" statuses)) 1 false)
  else .error (.keyErrorMode mode)

/-- The increment key selected by generate_cycle_number for a mode. -/
def mode_inkey (mode : String) : String :=
  if mode == "chg" then "Chg" else "DChg"

/-- The off (pending-setting) key selected by generate_cycle_number. -/
def mode_offkey (mode : String) : String :=
  if mode == "chg" then "DChg" else "Chg"

theorem cyc_run_cons_eq (offkey st : String) (incb : Bool)
    (rest : List (String × Bool)) (cyc : ℕ) (flag : Bool) :
    cyc_run offkey ((st, incb) :: rest) cyc flag =
      match split_state st with
      | none =>
          cyc :: cyc_run offkey rest cyc (if st == "SIM" then true else flag)
      | some (_, state) =>
          if incb && flag then (cyc + 1) :: cyc_run offkey rest (cyc + 1) false
          else if state == offkey then cyc :: cyc_run offkey rest cyc true
          else cyc :: cyc_run offkey rest cyc flag := rfl

theorem cyc_run_cons (p : String × Bool) (rest : List (String × Bool))
    (offkey : String) (cyc : ℕ) (flag : Bool) :
    ∃ c2 flag2,
      cyc_run offkey (p :: rest) cyc flag = c2 :: cyc_run offkey rest c2 flag2
      ∧ (c2 = cyc ∨ c2 = cyc + 1)
      ∧ (flag2 = true →
          flag = true ∨ carries_state offkey p.1 = true ∨ p.1 = "SIM") := by
  obtain ⟨st, incb⟩ := p
  rw [cyc_run_cons_eq]
  cases hsp : split_state st with
  | none =>
      refine ⟨cyc, if st == "SIM" then true else flag, rfl, Or.inl rfl, ?_⟩
      intro h2
      by_cases hsim : (st == "SIM") = true
      · exact Or.inr (Or.inr (eq_of_beq hsim))
      · rw [if_neg hsim] at h2
        exact Or.inl h2
  | some ms =>
      obtain ⟨m, state⟩ := ms
      by_cases hif : (incb && flag) = true
      · exact ⟨cyc + 1, false, by simp [hif], Or.inr rfl, by simp⟩
      · by_cases hoff : (state == offkey) = true
        · refine ⟨cyc, true, by simp [hif, hoff], Or.inl rfl, ?_⟩
          intro _
          refine Or.inr (Or.inl ?_)
          simp only [carries_state, hsp]
          exact hoff
        · exact ⟨cyc, flag, by simp [hif, hoff], Or.inl rfl,
            fun h => Or.inl h⟩

theorem cyc_run_length : ∀ (pairs : List (String × Bool)) (offkey : String)
    (cyc : ℕ) (flag : Bool),
    (cyc_run offkey pairs cyc flag).length = pairs.length
  | [], _, _, _ => rfl
  | p :: rest, offkey, cyc, flag => by
      obtain ⟨c2, flag2, heq, -, -⟩ := cyc_run_cons p rest offkey cyc flag
      rw [heq]
      simp [cyc_run_length rest offkey c2 flag2]

theorem cyc_run_head : ∀ (pairs : List (String × Bool)) (offkey : String)
    (cyc : ℕ) (flag : Bool) (b : ℕ),
    (cyc_run offkey pairs cyc flag).head? = some b →
    b = cyc ∨ (b = cyc + 1 ∧ flag = true
      ∧ ∃ st, pairs.head? = some (st, true)) := by
  intro pairs offkey cyc flag b h
  match pairs with
  | [] => simp [cyc_run] at h
  | (st, incb) :: rest =>
      rw [cyc_run_cons_eq] at h
      cases hsp : split_state st with
      | none =>
          rw [hsp] at h
          simp at h
          exact Or.inl h.symm
      | some ms =>
          obtain ⟨m, state⟩ := ms
          rw [hsp] at h
          by_cases hif : (incb && flag) = true
          · simp only [hif, if_true] at h
            simp at h
            obtain ⟨hib, hfl⟩ : incb = true ∧ flag = true := by
              simpa using hif
            subst hib
            exact Or.inr ⟨h.symm, hfl, st, rfl⟩
          · by_cases hoff : (state == offkey) = true
            · simp only [hif, hoff, Bool.false_eq_true, if_false, if_true] at h
              simp at h
              exact Or.inl h.symm
            · simp only [hif, hoff, Bool.false_eq_true, if_false] at h
              simp at h
              exact Or.inl h.symm

theorem cyc_run_chain : ∀ (pairs : List (String × Bool)) (offkey : String)
    (cyc : ℕ) (flag : Bool),
    List.Chain' (· ≤ ·) (cyc_run offkey pairs cyc flag)
  | [], _, _, _ => List.chain'_nil
  | p :: rest, offkey, cyc, flag => by
      obtain ⟨c2, flag2, heq, -, -⟩ := cyc_run_cons p rest offkey cyc flag
      rw [heq]
      rw [List.chain'_cons']
      refine ⟨?_, cyc_run_chain rest offkey c2 flag2⟩
      intro y hy
      rcases cyc_run_head rest offkey c2 flag2 y hy with rfl | ⟨rfl, -, -⟩
      · exact le_refl _
      · exact Nat.le_succ _

theorem cyc_run_incr : ∀ (pairs : List (String × Bool)) (offkey : String)
    (cyc : ℕ) (flag : Bool) (i a b : ℕ),
    (cyc_run offkey pairs cyc flag).get? i = some a →
    (cyc_run offkey pairs cyc flag).get? (i + 1) = some b →
    a ≠ b →
    b = a + 1 ∧ (∃ st, pairs.get? (i + 1) = some (st, true))
      ∧ (flag = true ∨ ∃ j, j ≤ i ∧ ∃ st r, pairs.get? j = some (st, r)
          ∧ (carries_state offkey st = true ∨ st = "SIM"))
  | [], offkey, cyc, flag, i, a, b, ha, _, _ => by simp [cyc_run] at ha
  | p :: rest, offkey, cyc, flag, i, a, b, ha, hb, hne => by
      obtain ⟨c2, flag2, heq, -, hprov⟩ := cyc_run_cons p rest offkey cyc flag
      rw [heq] at ha hb
      match i with
      | 0 =>
          have ha0 : c2 = a := by simpa using ha
          have hb0 : (cyc_run offkey rest c2 flag2).head? = some b := by
            simpa [List.get?_eq_getElem?, List.head?_eq_getElem?] using hb
          rcases cyc_run_head rest offkey c2 flag2 b hb0 with rfl | ⟨rfl, hfl2, st, hst⟩
          · exact absurd ha0.symm hne
          · subst ha0
            refine ⟨rfl, ⟨st, ?_⟩, ?_⟩
            · simpa [List.get?_eq_getElem?, List.head?_eq_getElem?] using hst
            · rcases hprov hfl2 with hf | hoth
              · exact Or.inl hf
              · exact Or.inr ⟨0, Nat.le_refl 0, p.1, p.2, by simp, hoth⟩
      | k + 1 =>
          have ha' : (cyc_run offkey rest c2 flag2).get? k = some a := by
            simpa using ha
          have hb' : (cyc_run offkey rest c2 flag2).get? (k + 1) = some b := by
            simpa using hb
          obtain ⟨hstep, ⟨st, hst⟩, hloc⟩ :=
            cyc_run_incr rest offkey c2 flag2 k a b ha' hb' hne
          refine ⟨hstep, ⟨st, by simpa using hst⟩, ?_⟩
          rcases hloc with hf2 | ⟨j, hj, st2, r2, hst2, hkey⟩
          · rcases hprov hf2 with hf | hoth
            · exact Or.inl hf
            · exact Or.inr ⟨0, Nat.zero_le _, p.1, p.2, by simp, hoth⟩
          · exact Or.inr ⟨j + 1, Nat.succ_le_succ hj, st2, r2, by simpa using hst2, hkey⟩

theorem rising_edges_length (inkey : String) :
    ∀ statuses : List String,
      (rising_edges inkey statuses).length = statuses.length
  | [] => rfl
  | s :: rest => by
      show (true :: rising_aux inkey s rest).length = rest.length + 1
      have haux : ∀ (t : List String) (prev : String),
          (rising_aux inkey prev t).length = t.length := by
        intro t
        induction t with
        | nil => intro prev; rfl
        | cons y ys ih => intro prev; simp [rising_aux, ih]
      simp [haux]

/-- C4 counterexample: with mode chg on statuses [SIM, CC_Chg] the generated
Cycle column is [1, 2]: the cycle increments at the CC_Chg rising edge even
though no row carries the off-key DChg state, because the SIM row also sets
the pending flag. -/
theorem C4_cycle_monotone_counterexample :
    generate_cycle_number ["SIM", "CC_Chg"] "chg" = .ok [1, 2]
      ∧ ((["SIM", "CC_Chg"] : List String).all
          fun s => !(carries_state "DChg" s)) = true := by
  constructor
  · rfl
  · simp [carries_state, split_state, split_chars]

/-- C4 amended: for every valid mode (chg or dchg), the software-generated
Cycle column is non-decreasing, its first value is 1, and it increases (by
exactly 1) only at a rising edge of an incremental status occurring after a
row that set the pending flag, namely a row whose status carries the off-key
state or whose status is SIM. -/
theorem C4_cycle_monotone (mode : String) (statuses : List String)
    (hmode : mode = "chg" ∨ mode = "dchg") (out : List ℕ)
    (hout : generate_cycle_number statuses mode = .ok out) :
    (statuses ≠ [] → out.head? = some 1)
      ∧ List.Chain' (· ≤ ·) out
      ∧ ∀ i a b, out.get? i = some a → out.get? (i + 1) = some b → a ≠ b →
          b = a + 1
          ∧ (rising_edges (mode_inkey mode) statuses).get? (i + 1) = some true
          ∧ ∃ j, j ≤ i ∧ ∃ st, statuses.get? j = some st
              ∧ (carries_state (mode_offkey mode) st = true ∨ st = "SIM") := by
  have hrun : out = cyc_run (mode_offkey mode)
      (statuses.zip (rising_edges (mode_inkey mode) statuses)) 1 false := by
    rcases hmode with rfl | rfl
    · exact (Except.ok.inj hout).symm
    · exact (Except.ok.inj hout).symm
  subst hrun
  refine ⟨?_, cyc_run_chain _ _ _ _, ?_⟩
  · intro hne
    have hlen : (cyc_run (mode_offkey mode)
        (statuses.zip (rising_edges (mode_inkey mode) statuses)) 1
          false).length
        = statuses.length := by
      rw [cyc_run_length, List.length_zip, rising_edges_length, min_self]
    have hne2 : cyc_run (mode_offkey mode)
        (statuses.zip (rising_edges (mode_inkey mode) statuses)) 1
          false ≠ [] := by
      intro h0
      have hl0 := congrArg List.length h0
      rw [hlen] at hl0
      simp only [List.length_nil] at hl0
      exact hne (List.length_eq_zero.mp hl0)
    obtain ⟨x, xs, hxx⟩ := List.exists_cons_of_ne_nil hne2
    have hb : (cyc_run (mode_offkey mode)
        (statuses.zip (rising_edges (mode_inkey mode) statuses)) 1
          false).head? = some x := by rw [hxx]; rfl
    rcases cyc_run_head _ _ _ _ x hb with rfl | ⟨-, hfl, -⟩
    · rw [hxx]
      rfl
    · exact absurd hfl (by simp)
  · intro i a b ha hb hne
    obtain ⟨hstep, ⟨st, hst⟩, hloc⟩ := cyc_run_incr _ _ _ _ i a b ha hb hne
    have hst2 := (List.get?_zip_eq_some _ _ _ _).mp hst
    refine ⟨hstep, hst2.2, ?_⟩
    rcases hloc with hf | ⟨j, hj, st2, r2, hst3, hkey⟩
    · exact absurd hf (by simp)
    · exact ⟨j, hj, st2, ((List.get?_zip_eq_some _ _ _ _).mp hst3).1, hkey⟩

theorem C4_cycle_monotone_witness :
    ((["Rest", "CC_DChg", "CC_Chg"] : List String) ≠ [] →
        ([1, 1, 2] : List ℕ).head? = some 1)
      ∧ List.Chain' (· ≤ ·) ([1, 1, 2] : List ℕ)
      ∧ ∀ i a b, ([1, 1, 2] : List ℕ).get? i = some a →
          ([1, 1, 2] : List ℕ).get? (i + 1) = some b → a ≠ b →
          b = a + 1
          ∧ (rising_edges (mode_inkey "chg")
              ["Rest", "CC_DChg", "CC_Chg"]).get? (i + 1) = some true
          ∧ ∃ j, j ≤ i ∧ ∃ st,
              (["Rest", "CC_DChg", "CC_Chg"] : List String).get? j = some st
              ∧ (carries_state (mode_offkey "chg") st = true ∨ st = "SIM") :=
  C4_cycle_monotone "chg" ["Rest", "CC_DChg", "CC_Chg"] (Or.inl rfl)
    [1, 1, 2] (by rfl)

/-- A modelled pandas DataFrame: column names plus rows of cells. -/
structure DF where
  cols : List String
  rows : List (List Cell)
deriving DecidableEq

/-- Pandas DataFrame construction from a list of python lists with explicit
column names: ragged rows are padded with NaN to the width of the widest row
(pandas lib.to_object_array), and construction raises when that width
differs from the number of column names (pandas column validation, both when
the data is wider and when it is narrower).  An empty data list builds an
empty frame. -/
def mk_dataframe (data : List (List Cell)) (cols : List String) :
    Except PyErr DF :=
  if data = [] then .ok ⟨cols, []⟩
  else
    let w := (data.map List.length).foldr max 0
    if w = cols.length then
      .ok ⟨cols, data.map
        (fun r => r ++ List.replicate (w - r.length) Cell.null)⟩
    else .error (.columnMismatch cols.length w)

/-- The Index cell of a row (column 0 of rec_columns). -/
def row_index (r : List Cell) : Cell := r.getD 0 Cell.null

/-- Rank ordering Index cells the way pandas sort_values does: numbers by
value, missing values last (na_position last).  The string and datetime
cases are unreachable for an Index column and are mapped to the top as
well. -/
def cell_rank (c : Cell) : WithTop ℚ :=
  match c with
  | Cell.num q => (q : WithTop ℚ)
  | _ => ⊤

/-- Pandas drop_duplicates on the Index column keeping the first occurrence
(realized structurally with an accumulator of already seen Index cells); two
NaN Index cells count as duplicates of one another. -/
def drop_dup_index_aux (seen : List Cell) : List (List Cell) → List (List Cell)
  | [] => []
  | r :: rest =>
      if row_index r ∈ seen then drop_dup_index_aux seen rest
      else r :: drop_dup_index_aux (row_index r :: seen) rest

/-- Entry point of the Index dedup (see drop_dup_index_aux). -/
def drop_dup_index (rows : List (List Cell)) : List (List Cell) :=
  drop_dup_index_aux [] rows

/-- Boolean non-decreasing test on a list of ranks. -/
def ranks_nondec : List (WithTop ℚ) → Bool
  | [] => true
  | [_] => true
  | a :: b :: t => decide (a ≤ b) && ranks_nondec (b :: t)

/-- Pandas is_monotonic_increasing on the Index column: non-decreasing with
no missing value (any NaN makes it False). -/
def index_monotonic (rows : List (List Cell)) : Bool :=
  (rows.all fun r => match row_index r with
    | Cell.num _ => true
    | _ => false)
    && ranks_nondec (rows.map fun r => cell_rank (row_index r))

/-- The sort key relation of sort_values on the Index column. -/
def row_le (a b : List Cell) : Prop :=
  cell_rank (row_index a) ≤ cell_rank (row_index b)

instance : DecidableRel row_le := fun a b =>
  inferInstanceAs (Decidable (cell_rank (row_index a) ≤ cell_rank (row_index b)))

instance : IsTotal (List Cell) row_le :=
  ⟨fun a b => le_total (cell_rank (row_index a)) (cell_rank (row_index b))⟩

instance : IsTrans (List Cell) row_le := ⟨fun _ _ _ => le_trans⟩

/-- The assembly of read_nda lines 87 to 94: construct the DataFrame, drop
duplicate Index rows keeping the first, and sort ascending by Index when the
column is not already monotonic (pandas sort_values, NaN last; after the
dedup the keys are pairwise distinct, so the sort is deterministic). -/
def nda_sort_dedup (data : List (List Cell)) (cols : List String) :
    Except PyErr DF := do
  let df0 ← mk_dataframe data cols
  let rows1 := drop_dup_index df0.rows
  let rows2 := if index_monotonic rows1 then rows1
    else List.insertionSort row_le rows1
  return ⟨df0.cols, rows2⟩

/-- Pandas astype with dtype_dict: the Index, Cycle and Step columns (row
positions 0, 1, 2) are cast to unsigned integer dtypes, which raises
ValueError when a cell is missing (cannot convert non-finite values to
integer).  The numeric narrowing itself is not modelled: no claim depends on
the cast value, only on the NaN rejection. -/
def astype_int_cols (df : DF) : Except PyErr DF :=
  if df.rows.all (fun r =>
      (match r.getD 0 Cell.null with | Cell.num _ => true | _ => false)
      && (match r.getD 1 Cell.null with | Cell.num _ => true | _ => false)
      && (match r.getD 2 Cell.null with | Cell.num _ => true | _ => false))
  then .ok df else .error .astypeNonFinite

/-- Write the recomputed Step values back into column 2 of each row. -/
def set_step_column : List (List Cell) → List ℕ → List (List Cell)
  | [], _ => []
  | r :: rest, [] => r :: rest
  | r :: rest, v :: vs => r.set 2 (Cell.num v) :: set_step_column rest vs

/-- Write the generated Cycle values back into column 1 of each row. -/
def set_cycle_column : List (List Cell) → List ℕ → List (List Cell)
  | [], _ => []
  | r :: rest, [] => r :: rest
  | r :: rest, v :: vs => r.set 1 (Cell.num v) :: set_cycle_column rest vs

/-- Extract the Status column as python strings for generate_cycle_number; a
non-string Status cell (the NaN of a padded discarded record) makes
status.split raise AttributeError, which the source does not catch. -/
def statuses_of_rows (rows : List (List Cell)) : Except PyErr (List String) :=
  rows.mapM (fun r => match r.getD 3 Cell.null with
    | Cell.str s => Except.ok s
    | _ => Except.error PyErr.attributeError)

/-- Run generate_cycle_number over the Status column and write the result
into the Cycle column.  The relative precedence of an invalid-mode KeyError
against an AttributeError from a NaN Status is not modelled exactly (python
checks the mode before the loop); no claim depends on that ordering. -/
def gen_cycle_rows (rows : List (List Cell)) (cycle_mode : String) :
    Except PyErr (List (List Cell)) := do
  let sts ← statuses_of_rows rows
  let cyc ← generate_cycle_number sts cycle_mode
  return set_cycle_column rows cyc

/-- Shallow embedding of the assembly stage of read_nda (lines 87 to 110):
DataFrame construction, Index dedup and conditional sort, auxiliary-table
construction (line 97 builds it unconditionally, before the emptiness test),
Step recomputation over the raw Step column, the optional software cycle
number, and the final astype.  The aux pivot join (lines 99 to 102) only
appends per-channel columns and never changes the row count, order or the
main columns; with the three-name aux_columns schema it is unreachable for
decoded aux rows (the construction on line 97 fails first, see C10), so it
is modelled as the identity on the main columns. -/
def nda_postprocess (output aux : List (List Cell)) (software_cycle : Bool)
    (cycle_mode : String) : Except PyErr DF :=
  match nda_sort_dedup output rec_columns with
  | .error e => .error e
  | .ok df1 =>
    match mk_dataframe aux aux_columns with
    | .error e => .error e
    | .ok _ =>
      let steps := count_changes (df1.rows.map (fun r => r.getD 2 Cell.null))
      let rows3 := set_step_column df1.rows steps
      match (if software_cycle then gen_cycle_rows rows3 cycle_mode
        else .ok rows3) with
      | .error e => .error e
      | .ok rows4 => astype_int_cols ⟨df1.cols, rows4⟩

theorem drop_dup_index_aux_subset :
    ∀ (l : List (List Cell)) (seen : List Cell),
      ∀ x ∈ drop_dup_index_aux seen l, x ∈ l
  | [], _, x, hx => by simp [drop_dup_index_aux] at hx
  | r :: rest, seen, x, hx => by
      rw [drop_dup_index_aux] at hx
      by_cases hmem : row_index r ∈ seen
      · rw [if_pos hmem] at hx
        exact List.mem_cons_of_mem _ (drop_dup_index_aux_subset rest seen x hx)
      · rw [if_neg hmem] at hx
        rcases List.mem_cons.mp hx with rfl | hx2
        · exact List.mem_cons_self _ _
        · exact List.mem_cons_of_mem _
            (drop_dup_index_aux_subset rest _ x hx2)

theorem drop_dup_index_subset (l : List (List Cell)) :
    ∀ x ∈ drop_dup_index l, x ∈ l :=
  drop_dup_index_aux_subset l []

theorem drop_dup_index_aux_notmem :
    ∀ (l : List (List Cell)) (seen : List Cell),
      ∀ x ∈ drop_dup_index_aux seen l, row_index x ∉ seen
  | [], _, x, hx => by simp [drop_dup_index_aux] at hx
  | r :: rest, seen, x, hx => by
      rw [drop_dup_index_aux] at hx
      by_cases hmem : row_index r ∈ seen
      · rw [if_pos hmem] at hx
        exact drop_dup_index_aux_notmem rest seen x hx
      · rw [if_neg hmem] at hx
        rcases List.mem_cons.mp hx with rfl | hx2
        · exact hmem
        · have := drop_dup_index_aux_notmem rest _ x hx2
          intro hcon
          exact this (List.mem_cons_of_mem _ hcon)

theorem drop_dup_index_aux_pairwise :
    ∀ (l : List (List Cell)) (seen : List Cell),
      (drop_dup_index_aux seen l).Pairwise
        (fun a b => row_index a ≠ row_index b)
  | [], _ => by rw [drop_dup_index_aux]; exact List.Pairwise.nil
  | r :: rest, seen => by
      rw [drop_dup_index_aux]
      by_cases hmem : row_index r ∈ seen
      · rw [if_pos hmem]
        exact drop_dup_index_aux_pairwise rest seen
      · rw [if_neg hmem]
        refine List.Pairwise.cons ?_ (drop_dup_index_aux_pairwise rest _)
        intro b hb he
        exact drop_dup_index_aux_notmem rest _ b hb
          (he ▸ List.mem_cons_self _ _)

theorem drop_dup_index_pairwise (l : List (List Cell)) :
    (drop_dup_index l).Pairwise (fun a b => row_index a ≠ row_index b) :=
  drop_dup_index_aux_pairwise l []

theorem ranks_nondec_chain :
    ∀ l : List (WithTop ℚ), ranks_nondec l = true → List.Chain' (· ≤ ·) l
  | [], _ => List.chain'_nil
  | [_], _ => List.chain'_singleton _
  | a :: b :: t, h => by
      rw [ranks_nondec, Bool.and_eq_true, decide_eq_true_iff] at h
      exact List.chain'_cons.mpr ⟨h.1, ranks_nondec_chain (b :: t) h.2⟩

/-- Conjunction of two adjacent-pair chains. -/
theorem chain'_and {α : Type} {R S : α → α → Prop} :
    ∀ {l : List α}, List.Chain' R l → List.Chain' S l →
      List.Chain' (fun a b => R a b ∧ S a b) l := by
  intro l
  induction l with
  | nil => intro _ _; exact List.chain'_nil
  | cons a t ih =>
      intro h1 h2
      cases t with
      | nil => exact List.chain'_singleton _
      | cons b t2 =>
          rw [List.chain'_cons] at h1 h2 ⊢
          exact ⟨⟨h1.1, h2.1⟩, ih h1.2 h2.2⟩

/-- From adjacent distinct Index cells, numeric everywhere, and a
non-decreasing rank ordering, the ranks increase strictly. -/
theorem chain_lt_of_pairwise (rows : List (List Cell))
    (hnum : ∀ r ∈ rows, ∃ q : ℚ, row_index r = Cell.num q)
    (hpair : rows.Pairwise (fun a b => row_index a ≠ row_index b))
    (hle : List.Chain' row_le rows) :
    List.Chain' (fun a b => cell_rank (row_index a) < cell_rank (row_index b))
      rows := by
  have hchain2 : List.Chain'
      (fun a b => a ∈ rows ∧ b ∈ rows ∧ row_le a b) rows :=
    List.Chain'.iff_mem.mp hle
  have hchain3 : List.Chain'
      (fun a b => (a ∈ rows ∧ b ∈ rows ∧ row_le a b)
        ∧ row_index a ≠ row_index b) rows :=
    chain'_and hchain2 hpair.chain'
  refine hchain3.imp ?_
  rintro a b ⟨⟨ha, hb, hab⟩, hne⟩
  obtain ⟨qa, hqa⟩ := hnum a ha
  obtain ⟨qb, hqb⟩ := hnum b hb
  refine lt_of_le_of_ne hab ?_
  rw [hqa, hqb]
  intro he
  rw [hqa, hqb] at hne
  exact hne (congrArg Cell.num (WithTop.coe_eq_coe.mp he))

/-- C5 amended (nda half): in the nda path, whenever assembly succeeds on
main rows that all carry a numeric Index, the Index ranks of the assembled
table are strictly increasing (hence unique), because duplicates are dropped
first and the table is sorted when not already monotonic. -/
theorem C5_index_unique_nda (data : List (List Cell)) (df : DF)
    (hok : nda_sort_dedup data rec_columns = .ok df)
    (hnum : ∀ r ∈ data, ∃ q : ℚ, row_index r = Cell.num q) :
    List.Chain' (fun a b => cell_rank (row_index a) < cell_rank (row_index b))
      df.rows := by
  unfold nda_sort_dedup at hok
  cases hmk : mk_dataframe data rec_columns with
  | error e => rw [hmk] at hok; exact absurd hok (by simp [Except.bind])
  | ok df0 =>
      rw [hmk] at hok
      have hok2 : Except.ok (DF.mk df0.cols
          (if index_monotonic (drop_dup_index df0.rows)
            then drop_dup_index df0.rows
            else List.insertionSort row_le (drop_dup_index df0.rows)))
          = Except.ok df := hok
      have hdf := Except.ok.inj hok2
      have hrows : df.rows = if index_monotonic (drop_dup_index df0.rows)
          then drop_dup_index df0.rows
          else List.insertionSort row_le (drop_dup_index df0.rows) := by
        rw [← hdf]
      have hnum0 : ∀ r ∈ df0.rows, ∃ q : ℚ, row_index r = Cell.num q := by
        intro r hr
        unfold mk_dataframe at hmk
        by_cases hd : data = []
        · rw [if_pos hd] at hmk
          cases hmk
          simp at hr
        · rw [if_neg hd] at hmk
          by_cases hw : (data.map List.length).foldr max 0
              = rec_columns.length
          · rw [if_pos hw] at hmk
            cases hmk
            simp only [List.mem_map] at hr
            obtain ⟨r0, hr0, rfl⟩ := hr
            obtain ⟨q, hq⟩ := hnum r0 hr0
            refine ⟨q, ?_⟩
            unfold row_index at hq ⊢
            match r0, hq with
            | c :: _, hq => exact hq
          · rw [if_neg hw] at hmk
            exact absurd hmk (by simp)
      have hnum1 : ∀ r ∈ drop_dup_index df0.rows,
          ∃ q : ℚ, row_index r = Cell.num q :=
        fun r hr => hnum0 r (drop_dup_index_subset _ r hr)
      have hpair1 := drop_dup_index_pairwise df0.rows
      rw [hrows]
      by_cases hmono : index_monotonic (drop_dup_index df0.rows) = true
      · rw [if_pos hmono]
        refine chain_lt_of_pairwise _ hnum1 hpair1 ?_
        unfold index_monotonic at hmono
        rw [Bool.and_eq_true] at hmono
        have hch := ranks_nondec_chain _ hmono.2
        rw [List.chain'_map] at hch
        exact hch
      · rw [if_neg hmono]
        have hperm := (List.perm_insertionSort row_le
          (drop_dup_index df0.rows)).symm
        refine chain_lt_of_pairwise _ ?_ ?_ ?_
        · intro r hr
          exact hnum1 r (hperm.symm.subset hr)
        · exact (hperm.pairwise_iff (fun h he => h he.symm)).mp hpair1
        · exact (List.sorted_insertionSort row_le _).chain'

/-- Rows used as the C5 witness input: Index 3 and Index 1 with the layout
produced by the decoders (12 cells). -/
def c5wrow (n : ℚ) : List Cell :=
  [Cell.num n, Cell.num 1, Cell.num 1, Cell.str "Rest", Cell.num 0,
   Cell.num 0, Cell.num 0, Cell.num 0, Cell.num 0, Cell.num 0, Cell.num 0,
   Cell.dt 2021 1 1 0 0 0]

theorem C5_index_unique_nda_witness :
    List.Chain' (fun a b => cell_rank (row_index a) < cell_rank (row_index b))
      (DF.rows ⟨rec_columns,
        [c5wrow 1, c5wrow 3]⟩) :=
  C5_index_unique_nda [c5wrow 3, c5wrow 1, c5wrow 3] ⟨rec_columns,
      [c5wrow 1, c5wrow 3]⟩
    (by rfl)
    (by intro r hr
        simp only [List.mem_cons, List.not_mem_nil, or_false] at hr
        rcases hr with rfl | rfl | rfl
        · exact ⟨3, rfl⟩
        · exact ⟨1, rfl⟩
        · exact ⟨3, rfl⟩)

theorem aux_row_length (b : List ℕ) : (aux_bytes_to_list b).length = 4 := rfl

theorem aux_width (frames : List (List ℕ)) (hne : frames ≠ []) :
    ((frames.map aux_bytes_to_list).map List.length).foldr max 0 = 4 := by
  match frames with
  | [] => exact absurd rfl hne
  | f :: rest =>
      show max (aux_bytes_to_list f).length
        (((rest.map aux_bytes_to_list).map List.length).foldr max 0) = 4
      rw [aux_row_length]
      by_cases hr : rest = []
      · subst hr; rfl
      · rw [aux_width rest hr]
        exact max_self 4

/-- C10: every decoded nda auxiliary record is a 4-field row while
aux_columns declares only 3 names, so whenever the data section contributes
at least one auxiliary record and the main table itself assembles, the
auxiliary DataFrame construction fails with the column mismatch and read_nda
returns no Record table at all (hence the aux Voltage field is never exposed
in any nda output). -/
theorem C10_aux_schema_mismatch (output : List (List Cell))
    (auxFrames : List (List ℕ)) (hne : auxFrames ≠ [])
    (swc : Bool) (mode : String) (df1 : DF)
    (hmain : nda_sort_dedup output rec_columns = .ok df1) :
    nda_postprocess output (auxFrames.map aux_bytes_to_list) swc mode
      = .error (.columnMismatch 3 4) := by
  have hauxmk : mk_dataframe (auxFrames.map aux_bytes_to_list) aux_columns
      = .error (.columnMismatch 3 4) := by
    unfold mk_dataframe
    rw [if_neg (by simpa using hne)]
    rw [aux_width auxFrames hne]
    rfl
  unfold nda_postprocess
  rw [hmain, hauxmk]

theorem C10_aux_schema_mismatch_witness :
    nda_postprocess [] ([List.replicate 86 0].map aux_bytes_to_list)
      false "chg" = .error (.columnMismatch 3 4) :=
  C10_aux_schema_mismatch [] [List.replicate 86 0] (by simp) false "chg"
    ⟨rec_columns, []⟩ (by rfl)

/-- Shallow embedding of the ndc main record field codec (NewareNDAx.py
bytes_to_list_ndc): same structure as bytes_to_list at the ndc offsets, with
no Index or Status zero check (ndc records are never discarded). -/
def bytes_to_list_ndc (b : List ℕ) : Except PyErr (List Cell) :=
  let Index := leNat b 8 4
  let Cycle := leNat b 12 4
  let Step := b.getD 16 0
  let Status := b.getD 17 0
  let Time := leNat b 23 8
  let Voltage := leInt b 31 4
  let Current := leInt b 35 4
  let Charge_capacity := leInt b 43 8
  let Discharge_capacity := leInt b 51 8
  let Charge_energy := leInt b 59 8
  let Discharge_energy := leInt b 67 8
  let Y := leNat b 75 2
  let Mo := b.getD 77 0
  let Dy := b.getD 78 0
  let hh := b.getD 79 0
  let mi := b.getD 80 0
  let ss := b.getD 81 0
  let Range := leInt b 82 4
  match multiplier_dict Range with
  | none => .error (.keyErrorRange Range)
  | some multiplier =>
    match state_dict Status with
    | none => .error (.keyErrorStatus Status)
    | some st =>
      if valid_datetime Y Mo Dy hh mi ss then
        .ok [Cell.num Index,
             Cell.num (Cycle + 1),
             Cell.num Step,
             Cell.str st,
             Cell.num ((Time : ℚ) / 1000),
             Cell.num ((Voltage : ℚ) / 10000),
             Cell.num ((Current : ℚ) * multiplier),
             Cell.num ((Charge_capacity : ℚ) * multiplier / 3600),
             Cell.num ((Discharge_capacity : ℚ) * multiplier / 3600),
             Cell.num ((Charge_energy : ℚ) * multiplier / 3600),
             Cell.num ((Discharge_energy : ℚ) * multiplier / 3600),
             Cell.dt Y Mo Dy hh mi ss]
      else .error .valueErrorDate

/-- Shallow embedding of the merged-archive branch of read_ndax (data.ndc
only, no runInfo or step members, no aux members, software cycle number off):
the table returned by read_ndc is used as-is and only astype is applied;
this path performs no Index deduplication and no sorting. -/
def ndax_merged_postprocess (records : List (List Cell)) :
    Except PyErr DF := do
  let df ← mk_dataframe records rec_columns
  astype_int_cols df

/-- Concrete 87-byte ndc version 5 main record: Index 7, Status 4 (Rest),
Range 10, date 2021-01-01.  Two frames with these bytes in a page are both
classified as main records and decode to identical rows. -/
def c5bytes : List ℕ :=
  (((((List.replicate 87 0).set 8 7).set 17 4).set 75 229).set 76 7).set
    77 1 |>.set 78 1 |>.set 82 10

/-- The row bytes_to_list_ndc decodes from c5bytes. -/
def c5row : List Cell :=
  [Cell.num (leNat c5bytes 8 4 : ℚ),
   Cell.num ((leNat c5bytes 12 4 : ℚ) + 1),
   Cell.num (c5bytes.getD 16 0 : ℚ),
   Cell.str "Rest",
   Cell.num ((leNat c5bytes 23 8 : ℚ) / 1000),
   Cell.num ((leInt c5bytes 31 4 : ℚ) / 10000),
   Cell.num ((leInt c5bytes 35 4 : ℚ) * (1/1000)),
   Cell.num ((leInt c5bytes 43 8 : ℚ) * (1/1000) / 3600),
   Cell.num ((leInt c5bytes 51 8 : ℚ) * (1/1000) / 3600),
   Cell.num ((leInt c5bytes 59 8 : ℚ) * (1/1000) / 3600),
   Cell.num ((leInt c5bytes 67 8 : ℚ) * (1/1000) / 3600),
   Cell.dt (leNat c5bytes 75 2) (c5bytes.getD 77 0) (c5bytes.getD 78 0)
     (c5bytes.getD 79 0) (c5bytes.getD 80 0) (c5bytes.getD 81 0)]

/-- C5 counterexample: the ndax merged-archive path performs no Index
deduplication or sorting: two identical decoded ndc records with Index 7
pass through unchanged, so the returned table has two rows whose Index
ranks are not strictly increasing (and not unique). -/
theorem C5_index_unique_counterexample :
    bytes_to_list_ndc c5bytes = .ok c5row
      ∧ ndax_merged_postprocess [c5row, c5row]
          = .ok ⟨rec_columns, [c5row, c5row]⟩
      ∧ row_index c5row = Cell.num ((7 : ℕ) : ℚ)
      ∧ ¬ List.Chain'
          (fun a b => cell_rank (row_index a) < cell_rank (row_index b))
          (DF.rows ⟨rec_columns, [c5row, c5row]⟩) := by
  refine ⟨rfl, rfl, rfl, ?_⟩
  intro h
  have h2 := List.chain'_pair.mp h
  exact lt_irrefl _ h2

/-- The 6-byte data-section marker of nda version 29. -/
def marker29 : List ℕ := [0, 0, 0, 0, 85, 0]

/-- Whether pat occurs in buf starting exactly at position i (and fits). -/
def matches_at (buf pat : List ℕ) (i : ℕ) : Bool :=
  decide (i + pat.length ≤ buf.length)
    && decide ((buf.drop i).take pat.length = pat)

/-- Python mmap.find(pat, start): the least position at or after start where
pat occurs; none models the python return of -1. -/
def find_from (buf pat : List ℕ) (start : ℕ) : Option ℕ :=
  ((List.range (buf.length + 1)).filter
    (fun i => decide (start ≤ i) && matches_at buf pat i)).head?

/-- Byte of buf at a signed position (python mm indexing); every reachable
call in the scan has a non-negative position in range. -/
def byteAtZ (buf : List ℕ) (i : ℤ) : ℕ := buf.getD i.toNat 0

/-- Python slice buf[a : a + n] with clamping at the end of the buffer;
every reachable call has a non-negative start. -/
def sliceZ (buf : List ℕ) (a : ℤ) (n : ℕ) : List ℕ :=
  (buf.drop a.toNat).take n

/-- Result of the version-29 header scan loop. -/
inductive ScanResult where
  | found (header : ℤ)
  | fuelOut
deriving DecidableEq

/-- The while loop of read_nda_29 locating the data header: a candidate at
header is rejected while the byte after its 86-byte window is not 85 or the
window is not a valid record, provided the window fits the buffer (otherwise
the candidate is accepted unvalidated); a failed find continues the loop with
header = -1 exactly as python does (mm.find returns -1 and the loop
re-enters the test with that value, so the loop may fail to terminate).
Fuel bounds the unrolling; fuelOut reports exhaustion. -/
def scan29 (buf : List ℕ) : ℕ → ℤ → ScanResult
  | 0, _ => .fuelOut
  | fuel + 1, header =>
      if header + 4 + 86 < (buf.length : ℤ) then
        if byteAtZ buf (header + 4 + 86) ≠ 85
            ∨ valid_record (sliceZ buf (header + 4) 86) = false then
          match find_from buf marker29 (header + 4).toNat with
          | some h2 => scan29 buf fuel (h2 : ℤ)
          | none => scan29 buf fuel (-1)
        else .found header
      else .found header

/-- The frame-reading loop of read_nda_29: consume 86-byte frames from pos to
the end of the buffer, collecting main data rows (frame starts 55 00 and the
trailer slice [82:87] is all zero) and auxiliary rows (frame starts 65 with
the same zero trailer); a short final read is skipped.  Structural gas makes
the recursion kernel-reducible; buf.length + 1 gas always suffices since the
position strictly increases. -/
def read_frames29_aux (buf : List ℕ) :
    ℕ → ℕ → Except PyErr (List (List Cell) × List (List Cell))
  | 0, _ => .error .fuelExhausted
  | gas + 1, pos =>
      if pos < buf.length then
        if ((buf.drop pos).take 86).length = 86 then
          if ((buf.drop pos).take 86).take 2 = [85, 0]
              ∧ (((buf.drop pos).take 86).drop 82).take 5 = [0, 0, 0, 0] then
            match bytes_to_list ((buf.drop pos).take 86) with
            | .error e => .error e
            | .ok row =>
                match read_frames29_aux buf gas (min (pos + 86) buf.length)
                  with
                | .error e => .error e
                | .ok (outs, auxs) => .ok (row :: outs, auxs)
          else if ((buf.drop pos).take 86).take 1 = [101]
              ∧ (((buf.drop pos).take 86).drop 82).take 5 = [0, 0, 0, 0] then
            match read_frames29_aux buf gas (min (pos + 86) buf.length) with
            | .error e => .error e
            | .ok (outs, auxs) =>
                .ok (outs, aux_bytes_to_list ((buf.drop pos).take 86) :: auxs)
          else read_frames29_aux buf gas (min (pos + 86) buf.length)
        else read_frames29_aux buf gas (min (pos + 86) buf.length)
      else .ok ([], [])

/-- Entry point of the version-29 frame-reading loop. -/
def read_frames29 (buf : List ℕ) (pos : ℕ) :
    Except PyErr (List (List Cell) × List (List Cell)) :=
  read_frames29_aux buf (buf.length + 1) pos

/-- Shallow embedding of read_nda_29 (NewareNDA.py): find the first marker
(EOFError when absent), run the validation scan loop, then read 86-byte
frames from header + 4. -/
def read_nda_29 (fuel : ℕ) (buf : List ℕ) :
    Except PyErr (List (List Cell) × List (List Cell)) :=
  match find_from buf marker29 0 with
  | none => .error .eofError
  | some h0 =>
      match scan29 buf fuel (h0 : ℤ) with
      | .fuelOut => .error .fuelExhausted
      | .found header => read_frames29 buf (header + 4).toNat

/-- Shallow embedding of read_nda for a version-29 buffer: the version-29
decode followed by the assembly stage. -/
def read_nda_v29 (fuel : ℕ) (buf : List ℕ) (software_cycle : Bool)
    (cycle_mode : String) : Except PyErr DF :=
  match read_nda_29 fuel buf with
  | .error e => .error e
  | .ok (output, aux) => nda_postprocess output aux software_cycle cycle_mode

theorem bytes_to_list_ne_eof (b : List ℕ) :
    bytes_to_list b ≠ .error .eofError := by
  unfold bytes_to_list
  dsimp only
  split
  · simp
  · split
    · simp
    · split
      · simp
      · split <;> simp

theorem read_frames29_aux_ne_eof (buf : List ℕ) :
    ∀ (gas pos : ℕ), read_frames29_aux buf gas pos ≠ .error .eofError := by
  intro gas
  induction gas with
  | zero => intro pos; simp [read_frames29_aux]
  | succ g ih =>
      intro pos
      rw [read_frames29_aux]
      by_cases h1 : pos < buf.length
      · rw [if_pos h1]
        by_cases h2 : ((buf.drop pos).take 86).length = 86
        · rw [if_pos h2]
          by_cases h3 : ((buf.drop pos).take 86).take 2 = [85, 0]
              ∧ (((buf.drop pos).take 86).drop 82).take 5 = [0, 0, 0, 0]
          · rw [if_pos h3]
            cases hbl : bytes_to_list ((buf.drop pos).take 86) with
            | error e =>
                intro hcon
                injection hcon with he
                exact bytes_to_list_ne_eof _ (by rw [hbl, he])
            | ok row =>
                cases hrec : read_frames29_aux buf g
                    (min (pos + 86) buf.length) with
                | error e =>
                    intro hcon
                    injection hcon with he
                    exact ih _ (by rw [hrec, he])
                | ok pr =>
                    obtain ⟨outs, auxs⟩ := pr
                    simp
          · rw [if_neg h3]
            by_cases h4 : ((buf.drop pos).take 86).take 1 = [101]
                ∧ (((buf.drop pos).take 86).drop 82).take 5 = [0, 0, 0, 0]
            · rw [if_pos h4]
              cases hrec : read_frames29_aux buf g
                  (min (pos + 86) buf.length) with
              | error e =>
                  intro hcon
                  injection hcon with he
                  exact ih _ (by rw [hrec, he])
              | ok pr =>
                  obtain ⟨outs, auxs⟩ := pr
                  simp
            · rw [if_neg h4]
              exact ih _
        · rw [if_neg h2]
          exact ih _
      · rw [if_neg h1]
        simp

/-- C8 amended: the version-29 decode raises EOFError exactly when the
6-byte marker never occurs in the buffer; when occurrences exist but none
passes the validity checks, no EOFError is raised: the scan either accepts
an unvalidated or sentinel position and decoding proceeds (possibly
returning an empty table) or the loop fails to terminate. -/
theorem C8_eof_iff (buf : List ℕ) (fuel : ℕ) :
    read_nda_29 fuel buf = .error .eofError
      ↔ find_from buf marker29 0 = none := by
  constructor
  · intro h
    unfold read_nda_29 at h
    cases hf : find_from buf marker29 0 with
    | none => rfl
    | some h0 =>
        rw [hf] at h
        have h2 : (match scan29 buf fuel (h0 : ℤ) with
            | ScanResult.fuelOut => Except.error PyErr.fuelExhausted
            | ScanResult.found header =>
                read_frames29 buf (header + 4).toNat)
            = Except.error PyErr.eofError := h
        cases hs : scan29 buf fuel (h0 : ℤ) with
        | fuelOut => rw [hs] at h2; exact absurd h2 (by simp)
        | found header =>
            rw [hs] at h2
            exact absurd h2 (read_frames29_aux_ne_eof buf _ _)
  · intro h
    unfold read_nda_29
    rw [h]

/-- All positions where the version-29 marker occurs in a buffer. -/
def marker_positions (buf : List ℕ) : List ℕ :=
  (List.range (buf.length + 1)).filter (fun i => matches_at buf marker29 i)

/-- The validity test the scan applies to a candidate header position (the
claim's terminology): the byte after the 86-byte window equals 85 and the
window is a valid record; a window that does not fit the buffer cannot
pass. -/
def passes_validity (buf : List ℕ) (h : ℕ) : Bool :=
  decide ((h : ℤ) + 4 + 86 < (buf.length : ℤ))
    && (byteAtZ buf ((h : ℤ) + 4 + 86) == 85)
    && valid_record (sliceZ buf ((h : ℤ) + 4) 86)

/-- Buffer for the C8 counterexample: 95 bytes with a single marker
occurrence at position 0 that fails validation (byte 90 is 1, not 85) and no
further occurrence; the rescan from position 4 returns -1 and the test at
header = -1 accepts (byte 89 is 85 and the status byte of the window at 3 is
non-zero), so decoding proceeds from offset 3 and returns an empty table. -/
def c8bytes : List ℕ :=
  (((List.replicate 95 0).set 4 85).set 15 1).set 89 85 |>.set 90 1

/-- C8 counterexample: a version-29 buffer in which the marker occurs exactly
once and that occurrence fails the validity checks is decoded without
EOFError: the result is an empty record table, not an exception. -/
theorem C8_eof_counterexample :
    marker_positions c8bytes = [0]
      ∧ passes_validity c8bytes 0 = false
      ∧ read_nda_29 2 c8bytes = .ok ([], []) := by
  refine ⟨by decide, by decide, by rfl⟩

/-- Buffer for the C9 evaluation: a valid marker and two 86-byte data
frames, the first a complete record with Index 1, the second a frame with
Index 0 (discarded by bytes_to_list). -/
def c9bytes : List ℕ :=
  ((((((((((List.replicate 176 0).set 4 85).set 6 1).set 16 1).set 74 229)
    |>.set 75 7).set 76 1).set 77 1).set 82 10).set 90 85).set 102 1

/-- C9 (evaluation of the code at the failing input): the zero-Index frame
decodes to the empty row, but read_nda appends that empty row to the output
list, pandas pads it to an all-NaN row, and the final astype of the integer
columns raises on the NaN, so the whole decode fails and no table of the
remaining records is produced. -/
theorem C9_zero_index_discard_eval :
    bytes_to_list ((c9bytes.drop 90).take 86) = .ok []
      ∧ read_nda_v29 2 c9bytes false "chg" = .error .astypeNonFinite := by
  refine ⟨by rfl, by rfl⟩

/-
Shallow embedding of data_interpolation (NewareNDAx.py).  A column is a list
of Option rationals (none is NaN/NaT); Timestamp is modelled in epoch
seconds, pandas timestamp plus to_timedelta arithmetic being affine in
seconds.  Pandas behaviors used: notnull masks; groupby-transform with
linear interpolation restricted to interior gaps (rows with a missing Step
key are excluded from every group and receive NaN from the transform, the
groupby dropna default); diff/ffill/shift/fillna; series.where;
groupby(mask.cumsum()).cumsum(), whose group ids are non-decreasing so
grouping is by contiguous runs and a NaN passes through without touching the
running sum.
-/

/-- The columns of the split-archive merged table that data_interpolation
reads or writes. -/
structure NdaxDF where
  step : List (Option ℚ)
  time : List (Option ℚ)
  timestamp : List (Option ℚ)
  voltage : List (Option ℚ)
  current : List (Option ℚ)
  chgCap : List (Option ℚ)
  dchgCap : List (Option ℚ)
  chgE : List (Option ℚ)
  dchgE : List (Option ℚ)
deriving DecidableEq

/-- NaN-propagating addition of two cells. -/
def opt_add : Option ℚ → Option ℚ → Option ℚ
  | some a, some b => some (a + b)
  | _, _ => none

/-- NaN-propagating subtraction of two cells. -/
def opt_sub : Option ℚ → Option ℚ → Option ℚ
  | some a, some b => some (a - b)
  | _, _ => none

/-- NaN-propagating multiplication of two cells. -/
def opt_mul : Option ℚ → Option ℚ → Option ℚ
  | some a, some b => some (a * b)
  | _, _ => none

/-- Pandas Series.notnull as a Boolean mask. -/
def snotnull (xs : List (Option ℚ)) : List Bool := xs.map Option.isSome

/-- Helper for sdiff carrying the previous value. -/
def sdiff_aux (prev : Option ℚ) : List (Option ℚ) → List (Option ℚ)
  | [] => []
  | y :: ys => opt_sub y prev :: sdiff_aux y ys

/-- Pandas Series.diff: first entry NaN, then pairwise differences. -/
def sdiff : List (Option ℚ) → List (Option ℚ)
  | [] => []
  | x :: xs => none :: sdiff_aux x xs

/-- Helper for sffill carrying the last seen value. -/
def sffill_aux (last : Option ℚ) : List (Option ℚ) → List (Option ℚ)
  | [] => []
  | y :: ys =>
      match y with
      | some v => some v :: sffill_aux (some v) ys
      | none => last :: sffill_aux last ys

/-- Pandas Series.ffill: forward-fill missing values. -/
def sffill (xs : List (Option ℚ)) : List (Option ℚ) := sffill_aux none xs

/-- Pandas Series.shift(): prepend NaN, drop the last entry. -/
def sshift : List (Option ℚ) → List (Option ℚ)
  | [] => []
  | x :: xs => none :: (x :: xs).dropLast

/-- Pandas Series.fillna(0). -/
def sfillna0 (xs : List (Option ℚ)) : List (Option ℚ) :=
  xs.map (fun x => some (x.getD 0))

/-- Pandas Series.where(mask, other): keep the entry where the mask is true,
take the other series where it is false. -/
def swhere : List Bool → List (Option ℚ) → List (Option ℚ) → List (Option ℚ)
  | m :: ms, x :: xs, y :: ys => (if m then x else y) :: swhere ms xs ys
  | _, _, _ => []

/-- Pandas Series.where(mask, 0) with a scalar 0 replacement. -/
def swhere_zero : List (Option ℚ) → List Bool → List (Option ℚ)
  | x :: xs, m :: ms => (if m then x else some 0) :: swhere_zero xs ms
  | _, _ => []

/-- Elementwise combination of two series. -/
def szip (f : Option ℚ → Option ℚ → Option ℚ)
    (xs ys : List (Option ℚ)) : List (Option ℚ) :=
  List.zipWith f xs ys

/-- The mask > 0 of a current column; NaN compares false. -/
def sgt_zero (xs : List (Option ℚ)) : List Bool :=
  xs.map (fun x => match x with | some v => decide (0 < v) | none => false)

/-- The mask < 0 of a current column; NaN compares false. -/
def slt_zero (xs : List (Option ℚ)) : List Bool :=
  xs.map (fun x => match x with | some v => decide (v < 0) | none => false)

/-- Elementwise absolute value. -/
def sabs (xs : List (Option ℚ)) : List (Option ℚ) := xs.map (Option.map abs)

/-- Elementwise division by a constant. -/
def sdiv_const (xs : List (Option ℚ)) (c : ℚ) : List (Option ℚ) :=
  xs.map (Option.map (· / c))

/-- Cumulative sum of a Boolean mask (pandas mask.cumsum() used as group
ids; it is non-decreasing, so equal ids are contiguous). -/
def mask_cumsum (mask : List Bool) : List ℕ :=
  cumsum_from 0 (mask.map (fun m => if m then 1 else 0))

/-- Helper of cumsum_groups: running within-group sums, NaN entries pass
through without touching the accumulator (pandas cumsum). -/
def cumsum_run (id0 : ℕ) (acc : ℚ) : List ℕ → List (Option ℚ) → List (Option ℚ)
  | i :: is, x :: xs =>
      if i = id0 then
        match x with
        | none => none :: cumsum_run id0 acc is xs
        | some v => some (acc + v) :: cumsum_run id0 (acc + v) is xs
      else
        match x with
        | none => none :: cumsum_run i 0 is xs
        | some v => some v :: cumsum_run i v is xs
  | _, _ => []

/-- Pandas groupby(ids).cumsum() for non-decreasing ids: within-run
cumulative sums. -/
def cumsum_groups : List ℕ → List (Option ℚ) → List (Option ℚ)
  | i :: is, x :: xs =>
      (match x with
        | none => none :: cumsum_run i 0 is xs
        | some v => some v :: cumsum_run i v is xs)
  | _, _ => []

/-- The last known entry of xs strictly before position i, with its
position. -/
def prev_known (xs : List (Option ℚ)) (i : ℕ) : Option (ℕ × ℚ) :=
  ((List.range i).filterMap
    (fun j => (xs.getD j none).map (fun v => (j, v)))).getLast?

/-- The first known entry of xs strictly after position i, with its
position. -/
def next_known (xs : List (Option ℚ)) (i : ℕ) : Option (ℕ × ℚ) :=
  ((List.range xs.length).filterMap (fun j =>
    if i < j then (xs.getD j none).map (fun v => (j, v)) else none)).head?

/-- Pandas Series.interpolate(limit_area = inside) with the positional
linear method: a missing entry bounded by known values on both sides is
filled linearly; leading and trailing gaps stay missing; known entries are
returned unchanged. -/
def interp_inside (xs : List (Option ℚ)) : List (Option ℚ) :=
  (List.range xs.length).map (fun i =>
    match xs.getD i none with
    | some v => some v
    | none =>
        match prev_known xs i, next_known xs i with
        | some jv, some kv =>
            some (jv.2 + (kv.2 - jv.2) * ((i : ℚ) - (jv.1 : ℚ))
              / ((kv.1 : ℚ) - (jv.1 : ℚ)))
        | _, _ => none)

/-- The positions belonging to the group of Step key k, in order. -/
def group_positions (step : List (Option ℚ)) (k : ℚ) : List ℕ :=
  (List.range step.length).filter (fun j => step.getD j none == some k)

/-- Pandas df.groupby(Step)[Time].transform(interpolate inside): each
group's entries are gathered in positional order, interpolated, and
scattered back; rows with a missing Step key belong to no group and receive
NaN. -/
def transform_interp (step time : List (Option ℚ)) : List (Option ℚ) :=
  (List.range time.length).map (fun i =>
    match step.getD i none with
    | none => none
    | some k =>
        (interp_inside ((group_positions step k).map
          (fun j => time.getD j none))).getD
            ((group_positions step k).indexOf i) none)

/-- The missing-data warning condition of data_interpolation (NewareNDAx.py
lines 110 to 115): the code computes nan_mask = df[Time].notnull() and warns
when nan_mask.any(), that is when at least one Time value is present. -/
def interpolation_warns (time : List (Option ℚ)) : Bool :=
  (snotnull time).any id

/-- Step 1 and 2 of data_interpolation: the Time column after the interior
groupwise interpolation (line 118). -/
def di_time1 (df : NdaxDF) : List (Option ℚ) :=
  transform_interp df.step df.time

/-- The final Time column after forward extrapolation (lines 122 to 125):
diff, ffill, within-run cumsum, shift, added to the forward-filled Time and
taken only where Time is still missing. -/
def di_time2 (df : NdaxDF) : List (Option ℚ) :=
  swhere (snotnull (di_time1 df)) (di_time1 df)
    (szip opt_add (sffill (di_time1 df))
      (sshift (cumsum_groups (mask_cumsum (snotnull (di_time1 df)))
        (sffill (sdiff (di_time1 df))))))

/-- The final Timestamp column (lines 128 to 131): the forward-filled
Timestamp plus the cumulative elapsed-time delta, taken only where Time was
originally missing. -/
def di_ts (df : NdaxDF) : List (Option ℚ) :=
  swhere (snotnull df.time) df.timestamp
    (szip opt_add (sffill df.timestamp)
      (sfillna0 (sshift (cumsum_groups
        (mask_cumsum (snotnull df.time)) (sdiff (di_time2 df))))))

/-- The integrated capacity increments (line 134). -/
def di_capacity (df : NdaxDF) : List (Option ℚ) :=
  sdiv_const (szip opt_mul (sdiff (di_time2 df)) (sabs df.current)) 3600

/-- The within-run cumulative capacity increments (line 135). -/
def di_incC (df : NdaxDF) : List (Option ℚ) :=
  cumsum_groups (mask_cumsum (snotnull df.time)) (di_capacity df)

/-- The final Charge_Capacity column (lines 136 to 140). -/
def di_chgCap (df : NdaxDF) : List (Option ℚ) :=
  swhere (snotnull df.time) df.chgCap
    (szip opt_add (sffill df.chgCap)
      (sshift (swhere_zero (di_incC df) (sgt_zero df.current))))

/-- The final Discharge_Capacity column (lines 138 to 141). -/
def di_dchgCap (df : NdaxDF) : List (Option ℚ) :=
  swhere (snotnull df.time) df.dchgCap
    (szip opt_add (sffill df.dchgCap)
      (sshift (swhere_zero (di_incC df) (slt_zero df.current))))

/-- The within-run cumulative energy increments (lines 144 to 145). -/
def di_incE (df : NdaxDF) : List (Option ℚ) :=
  cumsum_groups (mask_cumsum (snotnull df.time))
    (szip opt_mul (di_capacity df) df.voltage)

/-- The final Charge_Energy column (lines 146 to 150). -/
def di_chgE (df : NdaxDF) : List (Option ℚ) :=
  swhere (snotnull df.time) df.chgE
    (szip opt_add (sffill df.chgE)
      (sshift (swhere_zero (di_incE df) (sgt_zero df.current))))

/-- The final Discharge_Energy column (lines 148 to 151). -/
def di_dchgE (df : NdaxDF) : List (Option ℚ) :=
  swhere (snotnull df.time) df.dchgE
    (szip opt_add (sffill df.dchgE)
      (sshift (swhere_zero (di_incE df) (slt_zero df.current))))

/-- Shallow embedding of data_interpolation (NewareNDAx.py lines 105 to
151), assembled from the per-column stages above, which follow the source
line by line; see the section comment for the pandas semantics used. -/
def data_interpolation (df : NdaxDF) : NdaxDF :=
  { df with
    time := di_time2 df
    timestamp := di_ts df
    chgCap := di_chgCap df
    dchgCap := di_dchgCap df
    chgE := di_chgE df
    dchgE := di_dchgE df }

/-- C6 (evaluation of the code at the failing input): the warning test of
data_interpolation is inverted.  With a complete Time column the
missing-data warning fires, and with an all-missing Time column it stays
silent: the code tests notnull().any() instead of isnull().any(), the exact
opposite of the claimed condition (interpolation itself never raises, so
missing data indeed never makes the decode fail). -/
theorem C6_warning_eval :
    interpolation_warns [some 0, some 10] = true
      ∧ ((([some (0 : ℚ), some 10] : List (Option ℚ)).all
          (fun x => x.isSome)) = true)
      ∧ interpolation_warns [none, none] = false :=
  ⟨rfl, rfl, rfl⟩

/-- Input table for the C7 counterexample: three rows in one step, Time
known, known, missing; every other field fully known. -/
def c7cdf : NdaxDF where
  step := [some 1, some 1, some 1]
  time := [some 0, some 10, none]
  timestamp := [some 0, some 5, some 999]
  voltage := [some 0, some 0, some 0]
  current := [some 0, some 0, some 0]
  chgCap := [some 0, some 0, some 0]
  dchgCap := [some 0, some 0, some 0]
  chgE := [some 0, some 0, some 0]
  dchgE := [some 0, some 0, some 0]

/-- C7 counterexample: the replacement masks all come from the Time column,
not from each written column, so a row whose Timestamp is present but whose
Time is missing has that Timestamp overwritten: on c7cdf the third row's
Timestamp 999 becomes 1009 (the forward-filled Timestamp plus the
extrapolated elapsed-time delta), although it was non-missing in the
input. -/
theorem C7_no_overwrite_counterexample :
    c7cdf.timestamp.getD 2 none = some 999
      ∧ (data_interpolation c7cdf).timestamp.getD 2 none = some 1009
      ∧ (999 : ℚ) ≠ 1009 := by
  refine ⟨rfl, ?_, by norm_num⟩
  have h1 : transform_interp [some 1, some 1, some 1]
      [some 0, some 10, none] = [some (0 : ℚ), some 10, none] := rfl
  simp only [c7cdf, data_interpolation, di_ts, di_time2, di_time1, h1]
  norm_num [snotnull, sdiff, sdiff_aux, sffill, sffill_aux, sshift,
    sfillna0, swhere, szip, opt_add, opt_sub, mask_cumsum, cumsum_from,
    cumsum_groups, cumsum_run, List.dropLast]

@[simp] theorem length_snotnull (xs : List (Option ℚ)) :
    (snotnull xs).length = xs.length := List.length_map _ _

@[simp] theorem length_sdiff_aux :
    ∀ (xs : List (Option ℚ)) (prev : Option ℚ),
      (sdiff_aux prev xs).length = xs.length
  | [], _ => rfl
  | y :: ys, prev => by simp [sdiff_aux, length_sdiff_aux ys y]

@[simp] theorem length_sdiff (xs : List (Option ℚ)) :
    (sdiff xs).length = xs.length := by
  cases xs with
  | nil => rfl
  | cons x xs => simp [sdiff]

@[simp] theorem length_sffill_aux :
    ∀ (xs : List (Option ℚ)) (last : Option ℚ),
      (sffill_aux last xs).length = xs.length
  | [], _ => rfl
  | y :: ys, last => by
      cases y <;> simp [sffill_aux, length_sffill_aux ys]

@[simp] theorem length_sffill (xs : List (Option ℚ)) :
    (sffill xs).length = xs.length := length_sffill_aux xs none

@[simp] theorem length_sshift (xs : List (Option ℚ)) :
    (sshift xs).length = xs.length := by
  cases xs with
  | nil => rfl
  | cons x xs => simp [sshift]

@[simp] theorem length_sfillna0 (xs : List (Option ℚ)) :
    (sfillna0 xs).length = xs.length := List.length_map _ _

@[simp] theorem length_szip (f : Option ℚ → Option ℚ → Option ℚ)
    (xs ys : List (Option ℚ)) :
    (szip f xs ys).length = min xs.length ys.length := List.length_zipWith _ _ _

@[simp] theorem length_swhere_zero :
    ∀ (xs : List (Option ℚ)) (ms : List Bool),
      (swhere_zero xs ms).length = min xs.length ms.length
  | [], ms => by rw [show swhere_zero [] ms = [] from rfl]; simp
  | x :: xs, [] => by rw [show swhere_zero (x :: xs) [] = [] from rfl]; simp
  | x :: xs, m :: ms => by
      rw [show swhere_zero (x :: xs) (m :: ms)
        = (if m then x else some 0) :: swhere_zero xs ms from rfl]
      simp [length_swhere_zero xs ms]
      omega

@[simp] theorem length_sgt_zero (xs : List (Option ℚ)) :
    (sgt_zero xs).length = xs.length := List.length_map _ _

@[simp] theorem length_slt_zero (xs : List (Option ℚ)) :
    (slt_zero xs).length = xs.length := List.length_map _ _

@[simp] theorem length_sabs (xs : List (Option ℚ)) :
    (sabs xs).length = xs.length := List.length_map _ _

@[simp] theorem length_sdiv_const (xs : List (Option ℚ)) (c : ℚ) :
    (sdiv_const xs c).length = xs.length := List.length_map _ _

@[simp] theorem length_cumsum_from :
    ∀ (l : List ℕ) (b : ℕ), (cumsum_from b l).length = l.length
  | [], _ => rfl
  | x :: t, b => by simp [cumsum_from, length_cumsum_from t]

@[simp] theorem length_mask_cumsum (ms : List Bool) :
    (mask_cumsum ms).length = ms.length := by simp [mask_cumsum]

@[simp] theorem length_cumsum_run (ids : List ℕ) :
    ∀ (xs : List (Option ℚ)) (id0 : ℕ) (acc : ℚ),
      (cumsum_run id0 acc ids xs).length = min ids.length xs.length := by
  induction ids with
  | nil => intro xs id0 acc; rw [show cumsum_run id0 acc [] xs = [] from rfl]; simp
  | cons i is ih =>
      intro xs id0 acc
      cases xs with
      | nil =>
          rw [show cumsum_run id0 acc (i :: is) [] = [] from rfl]; simp
      | cons x xs =>
          by_cases h : i = id0 <;> cases x <;>
            simp [cumsum_run, h, ih] <;> omega

@[simp] theorem length_cumsum_groups :
    ∀ (ids : List ℕ) (xs : List (Option ℚ)),
      (cumsum_groups ids xs).length = min ids.length xs.length
  | [], xs => by rw [show cumsum_groups [] xs = [] from rfl]; simp
  | i :: is, [] => by rw [show cumsum_groups (i :: is) [] = [] from rfl]; simp
  | i :: is, x :: xs => by
      cases x <;> simp [cumsum_groups] <;> omega

@[simp] theorem length_transform_interp (step time : List (Option ℚ)) :
    (transform_interp step time).length = time.length := by
  simp [transform_interp]

@[simp] theorem length_swhere :
    ∀ (ms : List Bool) (xs ys : List (Option ℚ)),
      (swhere ms xs ys).length = min ms.length (min xs.length ys.length)
  | [], xs, ys => by rw [show swhere [] xs ys = [] from rfl]; simp
  | m :: ms, [], ys => by rw [show swhere (m :: ms) [] ys = [] from rfl]; simp
  | m :: ms, x :: xs, [] => by
      rw [show swhere (m :: ms) (x :: xs) [] = [] from rfl]; simp
  | m :: ms, x :: xs, y :: ys => by
      rw [show swhere (m :: ms) (x :: xs) (y :: ys)
        = (if m then x else y) :: swhere ms xs ys from rfl]
      simp [length_swhere ms xs ys]
      omega

theorem snotnull_getD (xs : List (Option ℚ)) (i : ℕ) (hi : i < xs.length) :
    (snotnull xs).getD i false = (xs.getD i none).isSome := by
  unfold snotnull
  rw [List.getD_eq_getElem?_getD, List.getElem?_map,
    List.getElem?_eq_getElem hi, List.getD_eq_getElem?_getD,
    List.getElem?_eq_getElem hi]
  rfl

theorem swhere_getD_true :
    ∀ (ms : List Bool) (xs ys : List (Option ℚ)) (i : ℕ),
      ms.getD i false = true → i < xs.length → i < ys.length →
      (swhere ms xs ys).getD i none = xs.getD i none
  | m :: ms, x :: xs, y :: ys, 0, hm, _, _ => by
      have h : m = true := by simpa using hm
      rw [show swhere (m :: ms) (x :: xs) (y :: ys)
        = (if m then x else y) :: swhere ms xs ys from rfl, h]
      simp
  | m :: ms, x :: xs, y :: ys, i + 1, hm, hx, hy => by
      rw [show swhere (m :: ms) (x :: xs) (y :: ys)
        = (if m then x else y) :: swhere ms xs ys from rfl]
      simpa using swhere_getD_true ms xs ys i (by simpa using hm)
        (by simpa using hx) (by simpa using hy)
  | [], _, _, i, hm, _, _ => by simp at hm
  | m :: ms, [], ys, i, _, hx, _ => by simp at hx
  | m :: ms, x :: xs, [], i, _, _, hy => by simp at hy

theorem swhere_eq_left :
    ∀ (ms : List Bool) (xs ys : List (Option ℚ)),
      (∀ m ∈ ms, m = true) → xs.length ≤ ms.length →
      xs.length ≤ ys.length → swhere ms xs ys = xs
  | [], [], _, _, _, _ => rfl
  | m :: ms, [], _, _, _, _ => by
      rw [show ∀ ys, swhere (m :: ms) [] ys = [] from fun ys => rfl]
  | [], x :: xs, _, _, hlx, _ => by simp at hlx
  | m :: ms, x :: xs, [], _, _, hly => by simp at hly
  | m :: ms, x :: xs, y :: ys, hall, hlx, hly => by
      have hm : m = true := hall m (List.mem_cons_self m ms)
      rw [show swhere (m :: ms) (x :: xs) (y :: ys)
        = (if m then x else y) :: swhere ms xs ys from rfl, hm,
        swhere_eq_left ms xs ys
          (fun b hb => hall b (List.mem_cons_of_mem m hb))
          (by simpa using hlx) (by simpa using hly)]
      simp

theorem interp_inside_getD (xs : List (Option ℚ)) (i : ℕ) (v : ℚ)
    (h : xs.getD i none = some v) :
    (interp_inside xs).getD i none = some v := by
  have hi : i < xs.length := by
    by_contra hcon
    rw [List.getD_eq_default _ _ (Nat.le_of_not_lt hcon)] at h
    exact Option.noConfusion h
  unfold interp_inside
  rw [List.getD_eq_getElem?_getD, List.getElem?_map, List.getElem?_range hi]
  simp [← List.getD_eq_getElem?_getD, h]

theorem transform_interp_getD (step time : List (Option ℚ)) (i : ℕ) (k : ℚ)
    (hk : step.getD i none = some k) (v : ℚ)
    (hv : time.getD i none = some v) :
    (transform_interp step time).getD i none = some v := by
  have hi : i < time.length := by
    by_contra hcon
    rw [List.getD_eq_default _ _ (Nat.le_of_not_lt hcon)] at hv
    exact Option.noConfusion hv
  have histep : i < step.length := by
    by_contra hcon
    rw [List.getD_eq_default _ _ (Nat.le_of_not_lt hcon)] at hk
    exact Option.noConfusion hk
  have hmem : i ∈ group_positions step k := by
    unfold group_positions
    rw [List.mem_filter]
    refine ⟨List.mem_range.mpr histep, ?_⟩
    rw [hk]
    simp
  have hlt : (group_positions step k).indexOf i
      < (group_positions step k).length :=
    List.indexOf_lt_length.mpr hmem
  have hidx : (group_positions step k).get
      ⟨(group_positions step k).indexOf i, hlt⟩ = i := List.indexOf_get hlt
  have hsub : ((group_positions step k).map
      (fun j => time.getD j none)).getD
        ((group_positions step k).indexOf i) none = some v := by
    rw [List.getD_eq_getElem?_getD, List.getElem?_map,
      List.getElem?_eq_getElem hlt]
    rw [List.get_eq_getElem] at hidx
    simp [hidx, ← List.getD_eq_getElem?_getD, hv]
  unfold transform_interp
  rw [List.getD_eq_getElem?_getD, List.getElem?_map, List.getElem?_range hi]
  simp only [Option.map_some', Option.getD_some,
    ← List.getD_eq_getElem?_getD, hk]
  exact interp_inside_getD _ _ _ hsub

theorem transform_interp_id (step time : List (Option ℚ))
    (hlen : step.length = time.length)
    (hstep : ∀ x ∈ step, x.isSome = true)
    (htime : ∀ x ∈ time, x.isSome = true) :
    transform_interp step time = time := by
  apply List.ext_getElem?
  intro i
  by_cases hi : i < time.length
  · have histep : i < step.length := by omega
    obtain ⟨k, hk⟩ := Option.isSome_iff_exists.mp
      (hstep step[i] (List.getElem_mem histep))
    obtain ⟨v, hv⟩ := Option.isSome_iff_exists.mp
      (htime time[i] (List.getElem_mem hi))
    have hk2 : step.getD i none = some k := by
      rw [List.getD_eq_getElem?_getD, List.getElem?_eq_getElem histep, hk]
      rfl
    have hv2 : time.getD i none = some v := by
      rw [List.getD_eq_getElem?_getD, List.getElem?_eq_getElem hi, hv]
      rfl
    have h := transform_interp_getD step time i k hk2 v hv2
    have hit : i < (transform_interp step time).length := by simp [hi]
    rw [List.getElem?_eq_getElem hit, List.getElem?_eq_getElem hi, hv]
    congr 1
    have h3 : (transform_interp step time).getD i none
        = (transform_interp step time)[i] := by
      rw [List.getD_eq_getElem?_getD, List.getElem?_eq_getElem hit]
      rfl
    rw [← h3, h]
  · rw [List.getElem?_eq_none (by simpa using Nat.le_of_not_lt hi),
      List.getElem?_eq_none (Nat.le_of_not_lt hi)]

/-- C7 amended: provided every Step key is non-missing, the gap interpolator
never rewrites any field of a row whose Time is non-missing (though fields
of rows with missing Time may be rewritten even when individually present,
since all replacement masks come from the Time column), and when no Time
value is missing the function is the identity on the table. -/
theorem C7_no_overwrite (df : NdaxDF)
    (hsl : df.step.length = df.time.length)
    (hts : df.timestamp.length = df.time.length)
    (hcu : df.current.length = df.time.length)
    (hvo : df.voltage.length = df.time.length)
    (hcc : df.chgCap.length = df.time.length)
    (hdc : df.dchgCap.length = df.time.length)
    (hce : df.chgE.length = df.time.length)
    (hde : df.dchgE.length = df.time.length)
    (hstepall : ∀ x ∈ df.step, x.isSome = true) :
    (∀ i v, df.time.getD i none = some v →
      ((data_interpolation df).time.getD i none = some v
        ∧ (data_interpolation df).timestamp.getD i none
            = df.timestamp.getD i none
        ∧ (data_interpolation df).chgCap.getD i none = df.chgCap.getD i none
        ∧ (data_interpolation df).dchgCap.getD i none
            = df.dchgCap.getD i none
        ∧ (data_interpolation df).chgE.getD i none = df.chgE.getD i none
        ∧ (data_interpolation df).dchgE.getD i none = df.dchgE.getD i none))
    ∧ ((∀ x ∈ df.time, x.isSome = true) → data_interpolation df = df) := by
  have hn1 : (di_time1 df).length = df.time.length := by simp [di_time1]
  have hn2 : (di_time2 df).length = df.time.length := by
    simp [di_time2, hn1]
  constructor
  · intro i v hv
    have hi : i < df.time.length := by
      by_contra hcon
      rw [List.getD_eq_default _ _ (Nat.le_of_not_lt hcon)] at hv
      exact Option.noConfusion hv
    have histep : i < df.step.length := by omega
    obtain ⟨k, hk⟩ := Option.isSome_iff_exists.mp
      (hstepall df.step[i] (List.getElem_mem histep))
    have hk2 : df.step.getD i none = some k := by
      rw [List.getD_eq_getElem?_getD, List.getElem?_eq_getElem histep, hk]
      rfl
    have htime1 : (di_time1 df).getD i none = some v :=
      transform_interp_getD _ _ i k hk2 v hv
    have hm2 : (snotnull (di_time1 df)).getD i false = true := by
      rw [snotnull_getD _ _ (by omega), htime1]
      rfl
    have hm : (snotnull df.time).getD i false = true := by
      rw [snotnull_getD _ _ hi, hv]
      rfl
    refine ⟨?_, ?_, ?_, ?_, ?_, ?_⟩
    · show (di_time2 df).getD i none = some v
      unfold di_time2
      rw [swhere_getD_true _ _ _ i hm2 (by omega) (by simp [hn1]; omega),
        htime1]
    · show (di_ts df).getD i none = df.timestamp.getD i none
      unfold di_ts
      exact swhere_getD_true _ _ _ i hm (by omega)
        (by simp [hn2, hts]; omega)
    · show (di_chgCap df).getD i none = df.chgCap.getD i none
      unfold di_chgCap
      exact swhere_getD_true _ _ _ i hm (by omega)
        (by simp [di_incC, di_capacity, hn2, hcc, hcu]; omega)
    · show (di_dchgCap df).getD i none = df.dchgCap.getD i none
      unfold di_dchgCap
      exact swhere_getD_true _ _ _ i hm (by omega)
        (by simp [di_incC, di_capacity, hn2, hdc, hcu]; omega)
    · show (di_chgE df).getD i none = df.chgE.getD i none
      unfold di_chgE
      exact swhere_getD_true _ _ _ i hm (by omega)
        (by simp [di_incE, di_capacity, hn2, hce, hcu, hvo]; omega)
    · show (di_dchgE df).getD i none = df.dchgE.getD i none
      unfold di_dchgE
      exact swhere_getD_true _ _ _ i hm (by omega)
        (by simp [di_incE, di_capacity, hn2, hde, hcu, hvo]; omega)
  · intro htime
    have hid : di_time1 df = df.time := transform_interp_id _ _ hsl hstepall htime
    have hmaskall : ∀ m ∈ snotnull df.time, m = true := by
      intro m hmem
      simp only [snotnull, List.mem_map] at hmem
      obtain ⟨x, hx, rfl⟩ := hmem
      exact htime x hx
    have htime2 : di_time2 df = df.time := by
      unfold di_time2
      rw [hid]
      exact swhere_eq_left _ _ _ hmaskall (by simp) (by simp)
    have hts2 : di_ts df = df.timestamp := by
      unfold di_ts
      exact swhere_eq_left _ _ _ hmaskall (by simp [hts])
        (by simp [htime2, hts])
    have hcc2 : di_chgCap df = df.chgCap := by
      unfold di_chgCap
      exact swhere_eq_left _ _ _ hmaskall (by simp [hcc])
        (by simp [di_incC, di_capacity, htime2, hcc, hcu])
    have hdc2 : di_dchgCap df = df.dchgCap := by
      unfold di_dchgCap
      exact swhere_eq_left _ _ _ hmaskall (by simp [hdc])
        (by simp [di_incC, di_capacity, htime2, hdc, hcu])
    have hce2 : di_chgE df = df.chgE := by
      unfold di_chgE
      exact swhere_eq_left _ _ _ hmaskall (by simp [hce])
        (by simp [di_incE, di_capacity, htime2, hce, hcu, hvo])
    have hde2 : di_dchgE df = df.dchgE := by
      unfold di_dchgE
      exact swhere_eq_left _ _ _ hmaskall (by simp [hde])
        (by simp [di_incE, di_capacity, htime2, hde, hcu, hvo])
    show { df with
      time := di_time2 df
      timestamp := di_ts df
      chgCap := di_chgCap df
      dchgCap := di_dchgCap df
      chgE := di_chgE df
      dchgE := di_dchgE df } = df
    rw [htime2, hts2, hcc2, hdc2, hce2, hde2]

/-- Fully known two-row table used as the C7 witness input. -/
def c7wdf : NdaxDF where
  step := [some 1, some 1]
  time := [some 0, some 10]
  timestamp := [some 100, some 110]
  voltage := [some 4, some 4]
  current := [some 1, some 1]
  chgCap := [some 0, some 1]
  dchgCap := [some 0, some 0]
  chgE := [some 0, some 4]
  dchgE := [some 0, some 0]

theorem C7_no_overwrite_witness :
    ((data_interpolation c7wdf).time.getD 0 none = some 0
        ∧ (data_interpolation c7wdf).timestamp.getD 0 none
            = c7wdf.timestamp.getD 0 none
        ∧ (data_interpolation c7wdf).chgCap.getD 0 none
            = c7wdf.chgCap.getD 0 none
        ∧ (data_interpolation c7wdf).dchgCap.getD 0 none
            = c7wdf.dchgCap.getD 0 none
        ∧ (data_interpolation c7wdf).chgE.getD 0 none
            = c7wdf.chgE.getD 0 none
        ∧ (data_interpolation c7wdf).dchgE.getD 0 none
            = c7wdf.dchgE.getD 0 none)
      ∧ data_interpolation c7wdf = c7wdf :=
  ⟨(C7_no_overwrite c7wdf rfl rfl rfl rfl rfl rfl rfl rfl
      (by intro x hx; simp only [c7wdf, List.mem_cons, List.not_mem_nil,
        or_false] at hx; rcases hx with rfl | rfl <;> rfl)).1 0 0 rfl,
    (C7_no_overwrite c7wdf rfl rfl rfl rfl rfl rfl rfl rfl
      (by intro x hx; simp only [c7wdf, List.mem_cons, List.not_mem_nil,
        or_false] at hx; rcases hx with rfl | rfl <;> rfl)).2
      (by intro x hx; simp only [c7wdf, List.mem_cons, List.not_mem_nil,
        or_false] at hx; rcases hx with rfl | rfl <;> rfl)⟩

end NewareNDA
